import Mathlib

/-!
Shallow embedding of the micropython-ndeflib binary codec layer.

The embedding follows the repository sources:
* `src/ndef/record.py`   — `Record._encode`, `Record._decode`,
  `Record._encode_type`, `Record._decode_type`, `Record.register_type`
* `src/ndef/text.py`     — `TextRecord._encode_payload`, `TextRecord._decode_payload`
* `src/undef/record.py`  — the `undef` variant of `Record` (same decoder body)
* `src/undef/microuri.py` — `MicroUri._encode_payload`, `MicroUri._decode_payload`

Byte strings are `List Nat` (each entry one octet); streams are the list of
bytes still unread, and `read(n)` is `take n` / `drop n` (a short read returns
the available remains, as with Python file objects).  Python exceptions are an
explicit error type; fallible code returns `Except`.
-/

namespace NdefLib

/-- The Python exceptions that can escape the codec functions.  `decodeError`
and `encodeError` are the repository's own exception classes and keep their
message text; the others are Python built-ins raised by primitive operations
(`bytes.decode`, tuple/bytes indexing, missing attributes, `struct.pack`,
evaluating an undefined global name). -/
inductive PyErr where
  | decodeError (msg : String)
  | encodeError (msg : String)
  | valueError (msg : String)
  | typeError (msg : String)
  | unicodeError
  | attributeError
  | indexError
  | nameError
  | structError
  deriving DecidableEq, Repr

/-- Discriminator for the repository's own `DecodeError` exception class. -/
def PyErr.isDecodeError : PyErr → Bool
  | .decodeError _ => true
  | _ => false

/-- `s.encode('ascii')` on a Python `str`: every code point must be below
0x80, the result is the list of code-point values. -/
def asciiEncode (s : String) : Except PyErr (List Nat) :=
  if s.data.all (fun c => c.toNat < 128) then
    .ok (s.data.map Char.toNat)
  else
    .error .unicodeError

/-- `b.decode('ascii')` on Python bytes: every octet must be below 0x80. -/
def asciiDecode (bs : List Nat) : Except PyErr String :=
  if bs.all (fun b => b < 128) then
    .ok (String.mk (bs.map Char.ofNat))
  else
    .error .unicodeError

/-- Character class `[a-zA-Z0-9-]` of the media-type pattern in
`Record._encode_type` (src/ndef/record.py line 210). -/
def isTokenByte1 (b : Nat) : Bool :=
  (65 ≤ b && b ≤ 90) || (97 ≤ b && b ≤ 122) || (48 ≤ b && b ≤ 57) || b == 45

/-- Character class `[a-zA-Z0-9-+.]` of the media-type pattern. -/
def isTokenByte2 (b : Nat) : Bool :=
  isTokenByte1 b || b == 43 || b == 46

/-- `re.match(b'[a-zA-Z0-9-]+/[a-zA-Z0-9-+.]+', v)` succeeds iff the maximal
leading run of class-1 bytes is nonempty, is followed by `'/'` (0x2F), and the
byte after the slash is in class 2 (`/` is not a class-1 byte, so greedy
matching with backtracking reduces to exactly this test). -/
def mediaMatch (v : List Nat) : Bool :=
  let run := v.takeWhile isTokenByte1
  let rest := v.drop run.length
  decide (run ≠ []) &&
    (match rest with
     | 47 :: c :: _ => isTokenByte2 c
     | _ => false)

/-- Octets of a string literal (all our literals are ASCII). -/
def strBytes (s : String) : List Nat := s.data.map Char.toNat

/-- `Record._encode_type` (src/ndef/record.py lines 193-228) restricted to
`str` input (the `None`/`bytes` cases funnel to the same byte comparison).
Returns the `(TNF, TYPE)` pair. -/
def encodeType (value : String) : Except PyErr (Nat × List Nat) :=
  match asciiEncode value with
  | .error e => .error e
  | .ok v =>
    match
      (if v = [] then .ok (0, [])
       else if strBytes "urn:nfc:wkt:" <+: v then .ok (1, v.drop 12)
       else if mediaMatch v then .ok (2, v)
       else if strBytes "urn:nfc:ext:" <+: v then .ok (4, v.drop 12)
       else if v = strBytes "unknown" then .ok (5, [])
       else if v = strBytes "unchanged" then .ok (6, [])
       else .error (.valueError "can not convert the record type string") :
        Except PyErr (Nat × List Nat)) with
    | .error e => .error e
    | .ok (TNF, TYPE) =>
      if 255 < TYPE.length then
        .error (.valueError "an NDEF Record TYPE can not be more than 255 octet")
      else
        .ok (TNF, TYPE)

/-- The TNF → canonical-prefix table of `Record._decode_type`. -/
def tnfNamePart (TNF : Nat) : String :=
  match TNF with
  | 0 => ""
  | 1 => "urn:nfc:wkt:"
  | 2 => ""
  | 3 => ""
  | 4 => "urn:nfc:ext:"
  | 5 => "unknown"
  | _ => "unchanged"

/-- `Record._decode_type` (src/ndef/record.py lines 181-190). -/
def decodeType (TNF : Nat) (TYPE : List Nat) : Except PyErr String :=
  if 6 < TNF then
    .error (.decodeError "NDEF Record TNF values must be 0 to 6")
  else
    match asciiDecode (if TNF = 0 ∨ TNF = 5 ∨ TNF = 6 then [] else TYPE) with
    | .error e => .error e
    | .ok s => .ok (tnfNamePart TNF ++ s)

/-! ### UTF-8 codec

`str.encode('UTF-8')` / `bytes.decode('UTF-8')` as used by
`TextRecord._encode_payload` / `TextRecord._decode_payload`.  A Python `str`
value is modelled as a Lean `String` (a sequence of Unicode scalar values). -/

/-- UTF-8 encoding of one scalar value. -/
def utf8EncodeChar (c : Char) : List Nat :=
  if c.toNat < 0x80 then [c.toNat]
  else if c.toNat < 0x800 then [0xC0 + c.toNat / 64, 0x80 + c.toNat % 64]
  else if c.toNat < 0x10000 then
    [0xE0 + c.toNat / 4096, 0x80 + c.toNat / 64 % 64, 0x80 + c.toNat % 64]
  else
    [0xF0 + c.toNat / 262144, 0x80 + c.toNat / 4096 % 64, 0x80 + c.toNat / 64 % 64,
      0x80 + c.toNat % 64]

/-- `s.encode('UTF-8')`. -/
def utf8Encode (s : String) : List Nat :=
  (s.data.map utf8EncodeChar).flatten

/-- Strict UTF-8 decoding of one scalar value from the head of a byte list;
returns the scalar and the remaining bytes.  Overlong forms, surrogates and
out-of-range values are rejected, as by Python's strict `bytes.decode`. -/
def utf8DecodeChar : List Nat → Option (Char × List Nat)
  | [] => none
  | b0 :: rest =>
    if b0 < 0x80 then some (Char.ofNat b0, rest)
    else if b0 < 0xC2 then none
    else if b0 < 0xE0 then
      match rest with
      | b1 :: rest1 =>
        if 0x80 ≤ b1 ∧ b1 < 0xC0 then
          some (Char.ofNat ((b0 - 0xC0) * 64 + (b1 - 0x80)), rest1)
        else none
      | _ => none
    else if b0 < 0xF0 then
      match rest with
      | b1 :: b2 :: rest2 =>
        if 0x80 ≤ b1 ∧ b1 < 0xC0 ∧ 0x80 ≤ b2 ∧ b2 < 0xC0 then
          let n := (b0 - 0xE0) * 4096 + (b1 - 0x80) * 64 + (b2 - 0x80)
          if n < 0x800 ∨ (0xD800 ≤ n ∧ n < 0xE000) then none
          else some (Char.ofNat n, rest2)
        else none
      | _ => none
    else if b0 < 0xF5 then
      match rest with
      | b1 :: b2 :: b3 :: rest3 =>
        if 0x80 ≤ b1 ∧ b1 < 0xC0 ∧ 0x80 ≤ b2 ∧ b2 < 0xC0 ∧
            0x80 ≤ b3 ∧ b3 < 0xC0 then
          let n := (b0 - 0xF0) * 262144 + (b1 - 0x80) * 4096 +
            (b2 - 0x80) * 64 + (b3 - 0x80)
          if n < 0x10000 ∨ 0x110000 ≤ n then none
          else some (Char.ofNat n, rest3)
        else none
      | _ => none
    else none

/-- Fuelled decode loop (the fuel is an upper bound on the number of decoded
characters; `utf8DecodeChar` always consumes at least one byte, so an input's
length is sufficient fuel). -/
def utf8DecodeLoop : Nat → List Nat → Option (List Char)
  | _, [] => some []
  | 0, _ :: _ => none
  | fuel + 1, bs =>
    match utf8DecodeChar bs with
    | some (c, rest) => (utf8DecodeLoop fuel rest).map (c :: ·)
    | none => none

/-- `bs.decode('UTF-8')` with strict error handling. -/
def utf8Decode (bs : List Nat) : Option String :=
  (utf8DecodeLoop bs.length bs).map String.mk

/-! ### UTF-16 codec

`str.encode('UTF-16')` / `bytes.decode('UTF-16')` (CPython semantics: the
encoder emits a byte-order mark and native little-endian code units; the
decoder honours a leading byte-order mark and otherwise assumes the native
order). -/

/-- UTF-16 code units of one scalar value (surrogate pair above 0xFFFF). -/
def utf16EncodeChar (c : Char) : List Nat :=
  if c.toNat < 0x10000 then [c.toNat]
  else
    [0xD800 + (c.toNat - 0x10000) / 1024, 0xDC00 + (c.toNat - 0x10000) % 1024]

/-- Code units of a whole string. -/
def utf16Units (s : String) : List Nat :=
  (s.data.map utf16EncodeChar).flatten

/-- Little-endian serialization of 16-bit code units. -/
def unitsToBytesLE (us : List Nat) : List Nat :=
  (us.map (fun u => [u % 256, u / 256])).flatten

/-- `s.encode('UTF-16')`: byte-order mark then little-endian units. -/
def utf16Encode (s : String) : List Nat :=
  0xFF :: 0xFE :: unitsToBytesLE (utf16Units s)

/-- Read 16-bit units from little-endian bytes; an odd byte count is a
decoding error (truncated data). -/
def bytesToUnitsLE : List Nat → Option (List Nat)
  | [] => some []
  | [_] => none
  | a :: b :: rest => (bytesToUnitsLE rest).map ((b * 256 + a) :: ·)

/-- Read 16-bit units from big-endian bytes. -/
def bytesToUnitsBE : List Nat → Option (List Nat)
  | [] => some []
  | [_] => none
  | a :: b :: rest => (bytesToUnitsBE rest).map ((a * 256 + b) :: ·)

/-- Decode one scalar value from the head of a code-unit list, combining
surrogate pairs; lone surrogates are a decoding error. -/
def utf16DecodeChar : List Nat → Option (Char × List Nat)
  | [] => none
  | u :: rest =>
    if u < 0xD800 ∨ 0xE000 ≤ u then some (Char.ofNat u, rest)
    else if u < 0xDC00 then
      match rest with
      | v :: rest1 =>
        if 0xDC00 ≤ v ∧ v < 0xE000 then
          some (Char.ofNat ((u - 0xD800) * 1024 + (v - 0xDC00) + 0x10000), rest1)
        else none
      | _ => none
    else none

/-- Fuelled loop turning code units into characters. -/
def utf16DecodeLoop : Nat → List Nat → Option (List Char)
  | _, [] => some []
  | 0, _ :: _ => none
  | fuel + 1, us =>
    match utf16DecodeChar us with
    | some (c, rest) => (utf16DecodeLoop fuel rest).map (c :: ·)
    | none => none

/-- `bs.decode('UTF-16')` with strict error handling: honour a leading
byte-order mark, otherwise assume the native (little-endian) order. -/
def utf16Decode (bs : List Nat) : Option String :=
  let p :=
    match bs with
    | b0 :: b1 :: rest =>
      if b0 = 0xFF ∧ b1 = 0xFE then (false, rest)
      else if b0 = 0xFE ∧ b1 = 0xFF then (true, rest)
      else (false, bs)
    | _ => (false, bs)
  match (if p.1 then bytesToUnitsBE p.2 else bytesToUnitsLE p.2) with
  | some us => (utf16DecodeLoop us.length us).map String.mk
  | none => none

/-! ### Record wire codec

`Record._encode` and `Record._decode` from src/ndef/record.py.  The decoder
body in src/undef/record.py is byte-for-byte the same algorithm; the two
variants differ only in which payload codecs their packages register, so one
decoder parameterized by the `known_types` mapping covers both. -/

/-- `Record.MAX_PAYLOAD_SIZE`. -/
def MAX_PAYLOAD_SIZE : Nat := 0x100000

/-- The `(TYPE, ID, PAYLOAD)` triple derived from the TNF in
`Record._encode` (src/ndef/record.py lines 89-96). -/
def wireFields (TNF : Nat) (TYPE0 name data : List Nat) :
    List Nat × List Nat × List Nat :=
  if TNF = 0 then ([], [], [])
  else if TNF = 5 then ([], name, data)
  else if TNF = 6 then ([], [], data)
  else (TYPE0, name, data)

/-- Big-endian 4-octet serialization of `struct.pack('>L', n)`. -/
def be32Bytes (n : Nat) : List Nat :=
  [n / 16777216 % 256, n / 65536 % 256, n / 256 % 256, n % 256]

/-- `struct.unpack('>L', ...)` on four octets. -/
def be32Val (a b c d : Nat) : Nat := ((a * 256 + b) * 256 + c) * 256 + d

/-- `Record._encode` (src/ndef/record.py lines 87-114), with the record's
`type` string, ID octets (`self.name.encode('latin')`) and payload octets
(`self.data`) passed explicitly.  `struct.pack('B', len(ID))` fails with
`struct.error` when the ID does not fit one octet (the `name` setter keeps
real records below that bound). -/
def encodeWire (ty : String) (name data : List Nat) (mb me cf : Bool) :
    Except PyErr (List Nat) :=
  match encodeType ty with
  | .error e => .error e
  | .ok (TNF, TYPE0) =>
    let (TYPE, ID, PAYLOAD) := wireFields TNF TYPE0 name data
    if MAX_PAYLOAD_SIZE < PAYLOAD.length then
      .error (.encodeError "payload of more than 1048576 octets can not be encoded")
    else if 255 < ID.length then .error .structError
    else
      let SR : Bool := decide (PAYLOAD.length < 256)
      let IL : Bool := decide (0 < ID.length)
      let octet0 := (if mb then 128 else 0) + (if me then 64 else 0) +
        (if cf then 32 else 0) + (if SR then 16 else 0) + (if IL then 8 else 0) +
        TNF
      .ok ([octet0, TYPE.length] ++
        (if SR then [PAYLOAD.length] else be32Bytes PAYLOAD.length) ++
        (if IL then [ID.length] else []) ++ TYPE ++ ID ++ PAYLOAD)

/-- The registered `Record` subclasses appearing in the repository. -/
inductive KnownClass where
  | textRecord
  | microUri
  deriving DecidableEq, Repr

/-- `record_class._type` of each registered class. -/
def KnownClass.typeString : KnownClass → String
  | .textRecord => "urn:nfc:wkt:T"
  | .microUri => "urn:nfc:wkt:U"

/-- `_decode_min_payload_length`: `TextRecord` sets 1, `MicroUri` inherits
the `Record` default 0. -/
def KnownClass.minPayloadLength : KnownClass → Nat
  | .textRecord => 1
  | .microUri => 0

/-- `_decode_max_payload_length`: both classes inherit the default. -/
def KnownClass.maxPayloadLength : KnownClass → Nat := fun _ => 0xffffffff

/-- An NDEF `TextRecord` (src/ndef/text.py): logical fields plus the ID
octets held by the inherited `name` attribute. -/
structure TextRecord where
  text : String
  language : String
  encoding : String
  name : List Nat := []
  deriving DecidableEq, Repr

/-- An NDEF `MicroUri` record (src/undef/microuri.py). -/
structure MicroUri where
  uri : String
  name : List Nat := []
  deriving DecidableEq, Repr

/-- Result of `Record._decode`: a typed record when the registry knows the
type, otherwise an opaque `Record` keeping the raw payload. -/
inductive AnyRecord where
  | opaqueRec (type : String) (name data : List Nat)
  | textRec (r : TextRecord)
  | uriRec (r : MicroUri)
  deriving DecidableEq, Repr

/-- `record.name = ID` after a typed payload decode. -/
def AnyRecord.withName : AnyRecord → List Nat → AnyRecord
  | .opaqueRec t _ d, nm => .opaqueRec t nm d
  | .textRec r, nm => .textRec { r with name := nm }
  | .uriRec r, nm => .uriRec { r with name := nm }

/-- `TextRecord._encode_payload` (src/ndef/text.py lines 57-65).  The status
octet is packed with `_encode_struct('B', ...)`, which mirrors
`struct.pack` and cannot overflow when the language length is below 64; its
`except struct_error` handler would itself crash with `NameError` because
`struct_error` is an undefined global in record.py. -/
def TextRecord.encodePayload (r : TextRecord) : Except PyErr (List Nat) :=
  match asciiEncode r.language with
  | .error e => .error e
  | .ok LANG =>
    let TEXT := if r.encoding = "UTF-16" then utf16Encode r.text
      else utf8Encode r.text
    let FLAG := LANG.length ||| (if r.encoding = "UTF-16" then 128 else 0)
    if 255 < FLAG then .error .nameError
    else .ok (FLAG :: LANG ++ TEXT)

/-- `TextRecord.__init__` as called from `_decode_payload`
(`cls(TEXT, LANG, UTFX)`): the `language` setter converts the byte string
with `_value_to_ascii` (a `UnicodeError` becomes `TypeError`) and checks the
1..63 length bound; `text` and `encoding` are already valid values there. -/
def TextRecord.mkChecked (text : String) (langBytes : List Nat)
    (utfx : String) : Except PyErr TextRecord :=
  match asciiDecode langBytes with
  | .error _ =>
    .error (.typeError "language conversion requires ascii text")
  | .ok lang =>
    if 0 < lang.length ∧ lang.length < 64 then
      pure { text := text, language := lang, encoding := utfx, name := [] }
    else
      .error (.valueError "language must be 1..63 characters")

/-- `TextRecord._decode_payload` (src/ndef/text.py lines 67-85).  The three
`raise cls._decode_error(...)` statements crash with `AttributeError`
because no `_decode_error` method exists anywhere in this repository; the
`_decode_struct('B', ...)` call on an empty payload crashes with `NameError`
(its handler names the undefined global `struct_error`). -/
def TextRecord.decodePayload (octets : List Nat) : Except PyErr TextRecord :=
  match octets with
  | [] => .error .nameError
  | FLAG :: _ =>
    if FLAG &&& 0x3F = 0 then .error .attributeError
    else if octets.length ≤ FLAG &&& 0x3F then .error .attributeError
    else
      let UTFX := if 0 < FLAG >>> 7 then "UTF-16" else "UTF-8"
      let LANG := (octets.drop 1).take (FLAG &&& 0x3F)
      match (if 0 < FLAG >>> 7 then utf16Decode else utf8Decode)
          (octets.drop (1 + LANG.length)) with
      | none => .error .attributeError
      | some TEXT => TextRecord.mkChecked TEXT LANG UTFX

/-- `MicroUri._prefix_strings` (src/undef/microuri.py lines 9-16), in table
order. -/
def uriTable : List String :=
  ["", "http://www.", "https://www.", "http://", "https://", "tel:",
   "mailto:", "ftp://anonymous:anonymous@", "ftp://ftp.", "ftps://",
   "sftp://", "smb://", "nfs://", "ftp://", "dav://", "news:",
   "telnet://", "imap:", "rtsp://", "urn:", "pop:", "sip:", "sips:",
   "tftp:", "btspp://", "btl2cap://", "btgoep://", "tcpobex://",
   "irdaobex://", "file://", "urn:epc:id:", "urn:epc:tag:",
   "urn:epc:pat:", "urn:epc:raw:", "urn:epc:", "urn:nfc:"]

/-- Python `str.startswith` / slicing work on characters; `String.mk` keeps
the embedding on reducible char lists. -/
def strIsPrefixOf (p s : String) : Bool := p.data.isPrefixOf s.data

/-- Python `s[n:]` on a `str`: drop the first `n` characters. -/
def strDrop (s : String) (n : Nat) : String := String.mk (s.data.drop n)

/-- The scan loop of `MicroUri._encode_payload`: try table entries in order,
skipping the empty entry, and return the position of the first hit together
with the URI's remaining suffix.  (The table has no duplicate entries, so
`self._prefix_strings.index(...)` is exactly the scan position.) -/
def uriScan (uri : String) : Nat → List String → Option (Nat × String)
  | _, [] => none
  | i, p :: rest =>
    if p ≠ "" ∧ strIsPrefixOf p uri then some (i, strDrop uri p.length)
    else uriScan uri (i + 1) rest

/-- `MicroUri._encode_payload` (src/undef/microuri.py lines 36-42). -/
def MicroUri.encodePayload (r : MicroUri) : List Nat :=
  match uriScan r.uri 0 uriTable with
  | some (i, suffix) => i :: utf8Encode suffix
  | none => 0 :: utf8Encode r.uri

/-- `MicroUri._decode_payload` (src/undef/microuri.py lines 45-51).
`stream.read(1)[0]` on an empty payload raises `IndexError`; so does
`cls._prefix_strings[code]` for a code at or above the table size 36.  The
`uri` setter decodes the rebuilt byte string as ASCII; a `UnicodeError`
there would crash with `AttributeError` (the `_value_error` helper named by
`_value_to_unicode` does not exist in src/undef/record.py). -/
def MicroUri.decodePayload (octets : List Nat) : Except PyErr MicroUri :=
  match octets with
  | [] => .error .indexError
  | code :: data =>
    match uriTable[code]? with
    | none => .error .indexError
    | some p =>
      match asciiDecode (strBytes p ++ data) with
      | .ok u => .ok { uri := u, name := [] }
      | .error _ => .error .attributeError

/-- `record_cls._decode_payload(PAYLOAD, errors)` dispatched through the
registry. -/
def KnownClass.runDecodePayload : KnownClass → List Nat → Except PyErr AnyRecord
  | .textRecord, octets => (TextRecord.decodePayload octets).map .textRec
  | .microUri, octets => (MicroUri.decodePayload octets).map .uriRec

/-- The length-field phase of `Record._decode` (lines 131-136): read
`struct.calcsize('>B' + ('B' if SR else 'L') + ('B' if IL else ''))` octets
and unpack them, with the missing ID_LENGTH defaulted to 0 by the `+ (0,)`;
a short read makes `struct.unpack` raise, which the handler converts to a
`DecodeError`. -/
def readLengths : Bool → Bool → List Nat →
    Except PyErr (Nat × Nat × Nat × List Nat)
  | true, true, t :: p :: i :: rest => .ok (t, p, i, rest)
  | true, false, t :: p :: rest => .ok (t, p, 0, rest)
  | false, true, t :: a :: b :: c :: d :: i :: rest =>
    .ok (t, be32Val a b c d, i, rest)
  | false, false, t :: a :: b :: c :: d :: rest =>
    .ok (t, be32Val a b c d, 0, rest)
  | _, _, _ => .error (.decodeError "buffer underflow at reading length fields")

/-- The structural-invariant phase of `Record._decode` (lines 138-147): the
first failing `assert` is reported as a `DecodeError`. -/
def structuralCheck (TNF tlen plen idlen : Nat) : Except PyErr Unit :=
  if (TNF = 0 ∨ TNF = 5 ∨ TNF = 6) ∧ tlen ≠ 0 then
    .error (.decodeError "TYPE_LENGTH must be 0 for TNF value")
  else if TNF = 0 ∧ idlen ≠ 0 then
    .error (.decodeError "ID_LENGTH must be 0 for TNF value")
  else if TNF = 0 ∧ plen ≠ 0 then
    .error (.decodeError "PAYLOAD_LENGTH must be 0 for TNF value")
  else if (TNF = 1 ∨ TNF = 2 ∨ TNF = 3 ∨ TNF = 4) ∧ tlen = 0 then
    .error (.decodeError "TYPE_LENGTH must be more than 0 for TNF value")
  else .ok ()

/-- `Record._decode` (src/ndef/record.py lines 117-178; identically
src/undef/record.py lines 49-110), over the stream of unread octets,
returning the record, the MB/ME/CF flags and the octets left unread.
`stream.read(1)[0]` on an exhausted stream raises `IndexError`; the
payload-bound branches raise `AttributeError` because `record_cls` has no
`_decode_error` attribute (lines 169/172). -/
def decodeAfterLengths (knownTypes : List (String × KnownClass))
    (MB ME CF : Bool) (TNF tlen plen idlen : Nat) (s2 : List Nat) :
    Except PyErr (AnyRecord × Bool × Bool × Bool × List Nat) :=
  match structuralCheck TNF tlen plen idlen with
  | .error e => .error e
  | .ok _ =>
    if MAX_PAYLOAD_SIZE < plen then
      .error
        (.decodeError "payload of more than 1048576 octets can not be decoded")
    else
      let TYPE := s2.take tlen
      let s3 := s2.drop tlen
      let ID := s3.take idlen
      let s4 := s3.drop idlen
      let PAYLOAD := s4.take plen
      let s5 := s4.drop plen
      if TYPE.length ≠ tlen then
        .error (.decodeError "buffer underflow at reading TYPE field")
      else if ID.length ≠ idlen then
        .error (.decodeError "buffer underflow at reading ID field")
      else if PAYLOAD.length ≠ plen then
        .error (.decodeError "buffer underflow at reading PAYLOAD field")
      else
        match decodeType TNF TYPE with
        | .error e => .error e
        | .ok recordType =>
          match List.lookup recordType knownTypes with
          | some recordCls =>
            if PAYLOAD.length < recordCls.minPayloadLength then
              .error .attributeError
            else if recordCls.maxPayloadLength < PAYLOAD.length then
              .error .attributeError
            else
              match recordCls.runDecodePayload PAYLOAD with
              | .error e => .error e
              | .ok result => .ok (result.withName ID, MB, ME, CF, s5)
          | none => .ok (.opaqueRec recordType ID PAYLOAD, MB, ME, CF, s5)

def decodeWire (knownTypes : List (String × KnownClass)) (stream : List Nat) :
    Except PyErr (AnyRecord × Bool × Bool × Bool × List Nat) :=
  match stream with
  | [] => .error .indexError
  | octet0 :: s1 =>
    let MB : Bool := octet0.testBit 7
    let ME : Bool := octet0.testBit 6
    let CF : Bool := octet0.testBit 5
    let SR : Bool := octet0.testBit 4
    let IL : Bool := octet0.testBit 3
    let TNF := octet0 % 8
    if TNF = 7 then
      .error (.decodeError "TNF field value must be between 0 and 6")
    else
      match readLengths SR IL s1 with
      | .error e => .error e
      | .ok (tlen, plen, idlen, s2) =>
        decodeAfterLengths knownTypes MB ME CF TNF tlen plen idlen s2

/-- `Record._known_types` of the `ndef` package after its module setup
(src/ndef/text.py line 88 registers `TextRecord`). -/
def ndefKnownTypes : List (String × KnownClass) :=
  [("urn:nfc:wkt:T", .textRecord)]

/-- `Record._known_types` of the `undef` package after its module setup
(src/undef/microuri.py line 54 registers `MicroUri`). -/
def undefKnownTypes : List (String × KnownClass) :=
  [("urn:nfc:wkt:U", .microUri)]

/-- `Record._encode` on a `TextRecord` instance: `self.type` is the class
attribute `'urn:nfc:wkt:T'` and `self.data` re-encodes the payload (that
type string always encodes, so evaluation order is immaterial). -/
def TextRecord.encode (r : TextRecord) (mb me cf : Bool) :
    Except PyErr (List Nat) :=
  match r.encodePayload with
  | .error e => .error e
  | .ok data => encodeWire "urn:nfc:wkt:T" r.name data mb me cf


/-! ### Registry mutation model (`Record.register_type`)

`Record._known_types` is a class attribute.  A subclass C initially has no
own `_known_types` entry, so attribute lookup yields the very dict object
stored on `Record`; `register_type` called on C first rebinds
`C._known_types` to a fresh empty dict when the identity check
`id(cls._known_types) == id(Record._known_types)` fires, then inserts.  The
state below carries the contents of the base dict and, when C has been
rebound, the contents of C's own dict (`none` = C still shares the base
object). -/

structure RegistryState where
  base : List (String × KnownClass)
  derived : Option (List (String × KnownClass))
  deriving DecidableEq, Repr

/-- Python `d[k] = v`: replace the value at an existing key in place,
otherwise append the new pair. -/
def dictInsert (m : List (String × KnownClass)) (k : String) (v : KnownClass) :
    List (String × KnownClass) :=
  if m.any (fun kv => kv.1 = k) then
    m.map (fun kv => if kv.1 = k then (k, v) else kv)
  else m ++ [(k, v)]

/-- `Record.register_type` (src/ndef/record.py lines 21-26, identically
src/undef/record.py lines 17-22) called on a subclass `C ≠ Record`: when C
still shares the base dict, `cls._known_types = \x7b\x7d` rebinds C to a fresh
empty dict, then `cls._known_types[record_class._type] = record_class`
inserts into C's dict. -/
def registerTypeOnSub (s : RegistryState) (rc : KnownClass) : RegistryState :=
  match s.derived with
  | none => { s with derived := some (dictInsert [] rc.typeString rc) }
  | some m => { s with derived := some (dictInsert m rc.typeString rc) }

/-- `Record.register_type` called on `Record` itself: the identity check is
skipped and the insert lands in the base dict. -/
def registerTypeOnRecord (s : RegistryState) (rc : KnownClass) : RegistryState :=
  { s with base := dictInsert s.base rc.typeString rc }


/-! ### Auxiliary lemmas -/

theorem lookup_cons_ne (k k1 : String) (h : k1 ≠ k) (v1 : KnownClass)
    (l : List (String × KnownClass)) :
    List.lookup k ((k1, v1) :: l) = List.lookup k l := by
  simp [List.lookup, beq_false_of_ne (Ne.symm h)]

theorem dictInsert_lookup (m : List (String × KnownClass)) (k : String)
    (v : KnownClass) : List.lookup k (dictInsert m k v) = some v := by
  induction m with
  | nil => simp [dictInsert, List.lookup]
  | cons kv t ih =>
    obtain ⟨k1, v1⟩ := kv
    by_cases hk : k1 = k
    · subst hk
      have hany : (((k1, v1) :: t).any (fun kv => decide (kv.1 = k1))) = true := by
        simp
      unfold dictInsert
      rw [if_pos hany]
      simp only [List.map_cons]
      rw [if_pos trivial]
      simp [List.lookup]
    · unfold dictInsert at ih ⊢
      cases hcase : (t.any (fun kv => decide (kv.1 = k))) with
      | true =>
        rw [if_pos (by simp [List.any_cons, hk, hcase])]
        rw [if_pos hcase] at ih
        simp only [List.map_cons]
        rw [show (if ((k1, v1) : String × KnownClass).1 = k then (k, v)
          else (k1, v1)) = (k1, v1) from if_neg hk]
        rw [lookup_cons_ne k k1 hk v1]
        exact ih
      | false =>
        rw [if_neg (by simp [List.any_cons, hk, hcase])]
        rw [if_neg (by simp [hcase])] at ih
        rw [List.cons_append, lookup_cons_ne k k1 hk v1]
        exact ih

theorem uriScan_finds (l : List String) :
    ∀ (uri : String) (k i : Nat) (p : String), l[i]? = some p → p ≠ "" →
    strIsPrefixOf p uri →
    (∀ j q, j < i → l[j]? = some q → q = "" ∨ ¬ strIsPrefixOf q uri) →
    uriScan uri k l = some (k + i, strDrop uri p.length) := by
  induction l with
  | nil =>
    intro uri k i p hp
    simp at hp
  | cons q0 rest ih =>
    intro uri k i p hp hne hpre hblock
    cases i with
    | zero =>
      have hq : q0 = p := by simpa using hp
      subst hq
      unfold uriScan
      rw [if_pos ⟨hne, hpre⟩, Nat.add_zero]
    | succ i =>
      have hq0 := hblock 0 q0 (Nat.succ_pos i) (by simp)
      have hcond : ¬ (q0 ≠ "" ∧ strIsPrefixOf q0 uri) := by
        rintro ⟨h1, h2⟩
        rcases hq0 with h | h
        · exact h1 h
        · exact h h2
      unfold uriScan
      rw [if_neg hcond]
      have hblock2 : ∀ j q, j < i → rest[j]? = some q →
          q = "" ∨ ¬ strIsPrefixOf q uri := by
        intro j q hj hq
        exact hblock (j + 1) q (by omega) (by simpa using hq)
      rw [ih uri (k + 1) i p (by simpa using hp) hne hpre hblock2]
      simp only [Option.some.injEq, Prod.mk.injEq]
      exact ⟨by omega, trivial⟩

theorem uriScan_none (l : List String) :
    ∀ (uri : String) (k : Nat),
    (∀ (j : Nat) (q : String), l[j]? = some q →
      q = "" ∨ ¬ strIsPrefixOf q uri) →
    uriScan uri k l = none := by
  induction l with
  | nil => intro uri k _; rfl
  | cons q0 rest ih =>
    intro uri k hblock
    have hq0 := hblock 0 q0 (by simp)
    have hcond : ¬ (q0 ≠ "" ∧ strIsPrefixOf q0 uri) := by
      rintro ⟨h1, h2⟩
      rcases hq0 with h | h
      · exact h1 h
      · exact h h2
    unfold uriScan
    rw [if_neg hcond]
    exact ih uri (k + 1) (fun j q hq => hblock (j + 1) q (by simpa using hq))

theorem encodeType_tnf_le (ty : String) (TNF : Nat) (TYPE0 : List Nat)
    (h : encodeType ty = .ok (TNF, TYPE0)) : TNF ≤ 6 := by
  unfold encodeType at h
  rcases ha : asciiEncode ty with e | v
  · rw [ha] at h
    exact absurd h (by simp)
  · rw [ha] at h
    dsimp only at h
    split_ifs at h <;> dsimp only at h <;> try split_ifs at h
    all_goals
      have hp := (Prod.ext_iff.mp (Except.ok.inj h)).1
    all_goals omega

theorem octet0_testBit4 (a b c s i : Bool) (t : Nat) (ht : t < 8) :
    ((if a then 128 else 0) + (if b then 64 else 0) + (if c then 32 else 0) +
      (if s then 16 else 0) + (if i then 8 else 0) + t).testBit 4 = s := by
  rw [Nat.testBit_to_div_mod]
  cases a <;> cases b <;> cases c <;> cases s <;> cases i <;> simp <;> omega

theorem octet0_testBit3 (a b c s i : Bool) (t : Nat) (ht : t < 8) :
    ((if a then 128 else 0) + (if b then 64 else 0) + (if c then 32 else 0) +
      (if s then 16 else 0) + (if i then 8 else 0) + t).testBit 3 = i := by
  rw [Nat.testBit_to_div_mod]
  cases a <;> cases b <;> cases c <;> cases s <;> cases i <;> simp <;> omega

theorem octet0_testBit7 (a b c s i : Bool) (t : Nat) (ht : t < 8) :
    ((if a then 128 else 0) + (if b then 64 else 0) + (if c then 32 else 0) +
      (if s then 16 else 0) + (if i then 8 else 0) + t).testBit 7 = a := by
  rw [Nat.testBit_to_div_mod]
  cases a <;> cases b <;> cases c <;> cases s <;> cases i <;> simp <;> omega

theorem octet0_testBit6 (a b c s i : Bool) (t : Nat) (ht : t < 8) :
    ((if a then 128 else 0) + (if b then 64 else 0) + (if c then 32 else 0) +
      (if s then 16 else 0) + (if i then 8 else 0) + t).testBit 6 = b := by
  rw [Nat.testBit_to_div_mod]
  cases a <;> cases b <;> cases c <;> cases s <;> cases i <;> simp <;> omega

theorem octet0_testBit5 (a b c s i : Bool) (t : Nat) (ht : t < 8) :
    ((if a then 128 else 0) + (if b then 64 else 0) + (if c then 32 else 0) +
      (if s then 16 else 0) + (if i then 8 else 0) + t).testBit 5 = c := by
  rw [Nat.testBit_to_div_mod]
  cases a <;> cases b <;> cases c <;> cases s <;> cases i <;> simp <;> omega

theorem octet0_mod8 (a b c s i : Bool) (t : Nat) (ht : t < 8) :
    ((if a then 128 else 0) + (if b then 64 else 0) + (if c then 32 else 0) +
      (if s then 16 else 0) + (if i then 8 else 0) + t) % 8 = t := by
  cases a <;> cases b <;> cases c <;> cases s <;> cases i <;> simp <;> omega

theorem lor128_of_lt (l : Nat) (h : l < 64) : l ||| 128 = l + 128 := by
  interval_cases l <;> rfl

theorem land63_self (l : Nat) (h : l < 64) : l &&& 63 = l := by
  interval_cases l <;> rfl

theorem add128_land63 (l : Nat) (h : l < 64) : (l + 128) &&& 63 = l := by
  interval_cases l <;> rfl

theorem shift7_eq_zero (l : Nat) (h : l < 128) : l >>> 7 = 0 := by
  rw [Nat.shiftRight_eq_div_pow]
  omega

theorem add128_shift7 (l : Nat) (h : l < 128) : (l + 128) >>> 7 = 1 := by
  rw [Nat.shiftRight_eq_div_pow]
  omega

theorem asciiDecode_asciiEncode (s : String)
    (h : ∀ c ∈ s.data, c.toNat < 128) :
    asciiDecode (s.data.map Char.toNat) = .ok s := by
  unfold asciiDecode
  rw [if_pos ?bound]
  case bound =>
    rw [List.all_eq_true]
    intro b hb
    rw [List.mem_map] at hb
    obtain ⟨c, hc, rfl⟩ := hb
    exact decide_eq_true (h c hc)
  · rw [List.map_map]
    have : s.data.map (Char.ofNat ∘ Char.toNat) = s.data.map id := by
      apply List.map_congr_left
      intro c _
      exact Char.ofNat_toNat c
    rw [this, List.map_id]

theorem structuralCheck_fails (TNF tlen plen idlen : Nat)
    (hbad : (TNF = 0 ∧ (tlen ≠ 0 ∨ plen ≠ 0 ∨ idlen ≠ 0)) ∨
      ((TNF = 5 ∨ TNF = 6) ∧ tlen ≠ 0) ∨
      ((TNF = 1 ∨ TNF = 2 ∨ TNF = 3 ∨ TNF = 4) ∧ tlen = 0)) :
    ∃ m, structuralCheck TNF tlen plen idlen = .error (.decodeError m) := by
  unfold structuralCheck
  split_ifs with hA hB hC hD
  · exact ⟨_, rfl⟩
  · exact ⟨_, rfl⟩
  · exact ⟨_, rfl⟩
  · exact ⟨_, rfl⟩
  · exfalso
    rcases hbad with ⟨h0, hl⟩ | ⟨h56, ht⟩ | ⟨h14, ht⟩
    · rcases hl with h | h | h
      · exact hA ⟨Or.inl h0, h⟩
      · exact hC ⟨h0, h⟩
      · exact hB ⟨h0, h⟩
    · rcases h56 with h | h
      · exact hA ⟨Or.inr (Or.inl h), ht⟩
      · exact hA ⟨Or.inr (Or.inr h), ht⟩
    · exact hD ⟨h14, ht⟩

theorem char_toNat_valid (c : Char) :
    c.toNat < 0xD800 ∨ (0xDFFF < c.toNat ∧ c.toNat < 0x110000) :=
  c.valid

theorem char_ofNat_toNat (c : Char) : Char.ofNat c.toNat = c :=
  Char.ofNat_toNat c

theorem utf8EncodeChar_ne_nil (c : Char) : utf8EncodeChar c ≠ [] := by
  unfold utf8EncodeChar
  split
  · simp
  · split
    · simp
    · split
      · simp
      · simp

/-- Decoding picks up exactly the bytes an encoded character contributed. -/
theorem utf8DecodeChar_encode (c : Char) (rest : List Nat) :
    utf8DecodeChar (utf8EncodeChar c ++ rest) = some (c, rest) := by
  have hvalid := char_toNat_valid c
  have hofnat := char_ofNat_toNat c
  unfold utf8EncodeChar
  by_cases h1 : c.toNat < 0x80
  · simp only [h1, if_true, List.cons_append, List.nil_append]
    unfold utf8DecodeChar
    simp only [h1, if_true]
    rw [hofnat]
  · by_cases h2 : c.toNat < 0x800
    · simp only [h1, h2, if_false, if_true, List.cons_append, List.nil_append]
      unfold utf8DecodeChar
      have ha : ¬ (0xC0 + c.toNat / 64 < 0x80) := by omega
      have hb : ¬ (0xC0 + c.toNat / 64 < 0xC2) := by omega
      have hc : 0xC0 + c.toNat / 64 < 0xE0 := by omega
      have hd : 0x80 ≤ 0x80 + c.toNat % 64 ∧ 0x80 + c.toNat % 64 < 0xC0 := by
        omega
      simp only [ha, hb, hc, hd, if_false, if_true, and_true, if_pos hd]
      have he : (0xC0 + c.toNat / 64 - 0xC0) * 64 + (0x80 + c.toNat % 64 - 0x80)
          = c.toNat := by omega
      rw [he, hofnat]
    · by_cases h3 : c.toNat < 0x10000
      · simp only [h1, h2, h3, if_false, if_true, List.cons_append,
          List.nil_append]
        unfold utf8DecodeChar
        have ha : ¬ (0xE0 + c.toNat / 4096 < 0x80) := by omega
        have hb : ¬ (0xE0 + c.toNat / 4096 < 0xC2) := by omega
        have hc : ¬ (0xE0 + c.toNat / 4096 < 0xE0) := by omega
        have hd : 0xE0 + c.toNat / 4096 < 0xF0 := by omega
        have hcont : 0x80 ≤ 0x80 + c.toNat / 64 % 64 ∧
            0x80 + c.toNat / 64 % 64 < 0xC0 ∧
            0x80 ≤ 0x80 + c.toNat % 64 ∧ 0x80 + c.toNat % 64 < 0xC0 := by
          omega
        have he : (0xE0 + c.toNat / 4096 - 0xE0) * 4096 +
            (0x80 + c.toNat / 64 % 64 - 0x80) * 64 + (0x80 + c.toNat % 64 - 0x80)
            = c.toNat := by omega
        have hf : ¬ (c.toNat < 0x800 ∨ (0xD800 ≤ c.toNat ∧ c.toNat < 0xE000)) := by
          omega
        simp only [ha, hb, hc, hd, if_false, if_true, if_pos hcont, he, hf]
        rw [hofnat]
      · have h4 : c.toNat < 0x110000 := by omega
        simp only [h1, h2, h3, if_false, List.cons_append, List.nil_append]
        unfold utf8DecodeChar
        have ha : ¬ (0xF0 + c.toNat / 262144 < 0x80) := by omega
        have hb : ¬ (0xF0 + c.toNat / 262144 < 0xC2) := by omega
        have hc : ¬ (0xF0 + c.toNat / 262144 < 0xE0) := by omega
        have hd : ¬ (0xF0 + c.toNat / 262144 < 0xF0) := by omega
        have hdd : 0xF0 + c.toNat / 262144 < 0xF5 := by omega
        have hcont : 0x80 ≤ 0x80 + c.toNat / 4096 % 64 ∧
            0x80 + c.toNat / 4096 % 64 < 0xC0 ∧
            0x80 ≤ 0x80 + c.toNat / 64 % 64 ∧
            0x80 + c.toNat / 64 % 64 < 0xC0 ∧
            0x80 ≤ 0x80 + c.toNat % 64 ∧ 0x80 + c.toNat % 64 < 0xC0 := by
          omega
        have he : (0xF0 + c.toNat / 262144 - 0xF0) * 262144 +
            (0x80 + c.toNat / 4096 % 64 - 0x80) * 4096 +
            (0x80 + c.toNat / 64 % 64 - 0x80) * 64 + (0x80 + c.toNat % 64 - 0x80)
            = c.toNat := by omega
        have hf : ¬ (c.toNat < 0x10000 ∨ 0x110000 ≤ c.toNat) := by omega
        simp only [ha, hb, hc, hd, hdd, if_false, if_true, if_pos hcont, he, hf]
        rw [hofnat]

theorem utf8DecodeLoop_encode (cs : List Char) :
    ∀ fuel, ((cs.map utf8EncodeChar).flatten).length ≤ fuel →
      utf8DecodeLoop fuel ((cs.map utf8EncodeChar).flatten) = some cs := by
  induction cs with
  | nil => intro fuel _; cases fuel <;> rfl
  | cons c cs ih =>
    intro fuel hfuel
    have hne := utf8EncodeChar_ne_nil c
    simp only [List.map_cons, List.flatten_cons] at hfuel ⊢
    cases fuel with
    | zero =>
      exfalso
      simp only [Nat.le_zero, List.length_append, List.length_eq_zero,
        Nat.add_eq_zero] at hfuel
      exact hne hfuel.1
    | succ fuel =>
      have hcons : ∃ b bs, utf8EncodeChar c ++ (cs.map utf8EncodeChar).flatten
          = b :: bs := by
        cases hh : utf8EncodeChar c with
        | nil => exact absurd hh hne
        | cons b bs => exact ⟨b, bs ++ (cs.map utf8EncodeChar).flatten, by simp [hh]⟩
      obtain ⟨b, bs, hb⟩ := hcons
      rw [hb]
      show (match utf8DecodeChar (b :: bs) with
        | some (c, rest) => (utf8DecodeLoop fuel rest).map (c :: ·)
        | none => none) = some (c :: cs)
      rw [← hb, utf8DecodeChar_encode]
      show (utf8DecodeLoop fuel ((cs.map utf8EncodeChar).flatten)).map (c :: ·)
        = some (c :: cs)
      have hlen : ((cs.map utf8EncodeChar).flatten).length ≤ fuel := by
        have : 1 ≤ (utf8EncodeChar c).length := by
          cases hh : utf8EncodeChar c with
          | nil => exact absurd hh hne
          | cons _ _ => simp
        simp only [List.length_append] at hfuel
        omega
      rw [ih fuel hlen]
      rfl

/-- UTF-8 round-trip on whole strings. -/
theorem utf8Decode_encode (s : String) : utf8Decode (utf8Encode s) = some s := by
  show (utf8DecodeLoop (utf8Encode s).length (utf8Encode s)).map String.mk
    = some s
  rw [show utf8Encode s = ((s.data.map utf8EncodeChar).flatten) from rfl,
    utf8DecodeLoop_encode s.data _ le_rfl]
  rfl

theorem utf16EncodeChar_units_lt (c : Char) :
    ∀ u ∈ utf16EncodeChar c, u < 0x10000 := by
  have hvalid := char_toNat_valid c
  intro u hu
  unfold utf16EncodeChar at hu
  by_cases h1 : c.toNat < 0x10000 <;>
    simp only [h1, if_true, if_false, List.mem_cons, List.not_mem_nil,
      or_false] at hu
  · omega
  · rcases hu with h | h <;> omega

theorem bytesToUnitsLE_round (us : List Nat) (h : ∀ u ∈ us, u < 0x10000) :
    bytesToUnitsLE (unitsToBytesLE us) = some us := by
  induction us with
  | nil => rfl
  | cons u us ih =>
    have hu : u < 0x10000 := h u (List.mem_cons_self u us)
    have hrest : ∀ v ∈ us, v < 0x10000 := fun v hv => h v (List.mem_cons_of_mem u hv)
    show bytesToUnitsLE (u % 256 :: u / 256 :: unitsToBytesLE us) = some (u :: us)
    show (bytesToUnitsLE (unitsToBytesLE us)).map ((u / 256 * 256 + u % 256) :: ·)
      = some (u :: us)
    rw [ih hrest]
    have : u / 256 * 256 + u % 256 = u := by omega
    rw [this]
    rfl

theorem utf16EncodeChar_ne_nil (c : Char) : utf16EncodeChar c ≠ [] := by
  unfold utf16EncodeChar
  split <;> simp

theorem utf16DecodeChar_encode (c : Char) (rest : List Nat) :
    utf16DecodeChar (utf16EncodeChar c ++ rest) = some (c, rest) := by
  have hvalid := char_toNat_valid c
  have hofnat := char_ofNat_toNat c
  unfold utf16EncodeChar
  by_cases h1 : c.toNat < 0x10000
  · simp only [h1, if_true, List.cons_append, List.nil_append]
    unfold utf16DecodeChar
    have ha : c.toNat < 0xD800 ∨ 0xE000 ≤ c.toNat := by omega
    simp only [ha, if_true, hofnat]
  · simp only [h1, if_false, List.cons_append, List.nil_append]
    unfold utf16DecodeChar
    have h4 : c.toNat < 0x110000 := by omega
    have ha : ¬ (0xD800 + (c.toNat - 0x10000) / 1024 < 0xD800 ∨
        0xE000 ≤ 0xD800 + (c.toNat - 0x10000) / 1024) := by omega
    have hb : 0xD800 + (c.toNat - 0x10000) / 1024 < 0xDC00 := by omega
    have hc : 0xDC00 ≤ 0xDC00 + (c.toNat - 0x10000) % 1024 ∧
        0xDC00 + (c.toNat - 0x10000) % 1024 < 0xE000 := by omega
    have he : (0xD800 + (c.toNat - 0x10000) / 1024 - 0xD800) * 1024 +
        (0xDC00 + (c.toNat - 0x10000) % 1024 - 0xDC00) + 0x10000 = c.toNat := by
      omega
    simp only [ha, hb, if_false, if_true, if_pos hc, he, hofnat]

theorem utf16DecodeLoop_encode (cs : List Char) :
    ∀ fuel, ((cs.map utf16EncodeChar).flatten).length ≤ fuel →
      utf16DecodeLoop fuel ((cs.map utf16EncodeChar).flatten) = some cs := by
  induction cs with
  | nil => intro fuel _; cases fuel <;> rfl
  | cons c cs ih =>
    intro fuel hfuel
    have hne := utf16EncodeChar_ne_nil c
    simp only [List.map_cons, List.flatten_cons] at hfuel ⊢
    cases fuel with
    | zero =>
      exfalso
      simp only [Nat.le_zero, List.length_append, List.length_eq_zero,
        Nat.add_eq_zero] at hfuel
      exact hne hfuel.1
    | succ fuel =>
      have hcons : ∃ b bs, utf16EncodeChar c ++ (cs.map utf16EncodeChar).flatten
          = b :: bs := by
        cases hh : utf16EncodeChar c with
        | nil => exact absurd hh hne
        | cons b bs =>
          exact ⟨b, bs ++ (cs.map utf16EncodeChar).flatten, by simp [hh]⟩
      obtain ⟨b, bs, hb⟩ := hcons
      rw [hb]
      show (match utf16DecodeChar (b :: bs) with
        | some (c, rest) => (utf16DecodeLoop fuel rest).map (c :: ·)
        | none => none) = some (c :: cs)
      rw [← hb, utf16DecodeChar_encode]
      show (utf16DecodeLoop fuel ((cs.map utf16EncodeChar).flatten)).map (c :: ·)
        = some (c :: cs)
      have hlen : ((cs.map utf16EncodeChar).flatten).length ≤ fuel := by
        have : 1 ≤ (utf16EncodeChar c).length := by
          cases hh : utf16EncodeChar c with
          | nil => exact absurd hh hne
          | cons _ _ => simp
        simp only [List.length_append] at hfuel
        omega
      rw [ih fuel hlen]
      rfl

theorem utf16Units_lt (s : String) : ∀ u ∈ utf16Units s, u < 0x10000 := by
  intro u hu
  unfold utf16Units at hu
  rw [List.mem_flatten] at hu
  obtain ⟨l, hl, hul⟩ := hu
  rw [List.mem_map] at hl
  obtain ⟨c, _, hcl⟩ := hl
  exact utf16EncodeChar_units_lt c u (hcl ▸ hul)

/-- UTF-16 round-trip on whole strings. -/
theorem utf16Decode_encode (s : String) :
    utf16Decode (utf16Encode s) = some s := by
  unfold utf16Decode utf16Encode
  norm_num
  rw [bytesToUnitsLE_round (utf16Units s) (utf16Units_lt s)]
  show (utf16DecodeLoop (utf16Units s).length (utf16Units s)).map String.mk
    = some s
  rw [show utf16Units s = ((s.data.map utf16EncodeChar).flatten) from rfl,
    utf16DecodeLoop_encode s.data _ le_rfl]
  rfl


/-- `TextRecord._decode_payload` recovers the logical fields from a payload
of the shape `_encode_payload` produces. -/
theorem text_decodePayload_spec (txt lang : String) (u16 : Bool)
    (TEXT : List Nat)
    (hA : ∀ c ∈ lang.data, c.toNat < 128)
    (hL1 : 0 < lang.length) (hL2 : lang.length < 64)
    (hdec : (if u16 then utf16Decode TEXT else utf8Decode TEXT) = some txt) :
    TextRecord.decodePayload
      ((lang.length ||| (if u16 then 128 else 0)) ::
        (lang.data.map Char.toNat ++ TEXT)) =
      .ok { text := txt, language := lang,
            encoding := if u16 then "UTF-16" else "UTF-8", name := [] } := by
  have hmap : (lang.data.map Char.toNat).length = lang.length := by
    rw [List.length_map]
    rfl
  have hdropT : ∀ F : Nat, (F :: (lang.data.map Char.toNat ++ TEXT)).drop
      (1 + (lang.data.map Char.toNat).length) = TEXT := by
    intro F
    rw [Nat.add_comm]
    show (lang.data.map Char.toNat ++ TEXT).drop
      (lang.data.map Char.toNat).length = TEXT
    rw [List.drop_left]
  cases u16 <;> simp only [Bool.false_eq_true, if_true, if_false] at hdec ⊢
  · rw [Nat.or_zero]
    unfold TextRecord.decodePayload
    dsimp only
    rw [land63_self _ hL2]
    rw [if_neg (by omega)]
    rw [if_neg (by
      simp only [List.length_cons, List.length_append, hmap]
      omega)]
    rw [shift7_eq_zero _ (by omega)]
    rw [show ((lang.length :: (lang.data.map Char.toNat ++ TEXT)).drop 1)
      = lang.data.map Char.toNat ++ TEXT from rfl]
    rw [List.take_left' hmap]
    rw [if_neg (by omega), if_neg (by omega)]
    rw [hdropT, hdec]
    unfold TextRecord.mkChecked
    rw [asciiDecode_asciiEncode lang hA]
    dsimp only
    rw [if_pos ⟨hL1, hL2⟩]
    rfl
  · rw [lor128_of_lt _ hL2]
    unfold TextRecord.decodePayload
    dsimp only
    rw [add128_land63 _ hL2]
    rw [if_neg (by omega)]
    rw [if_neg (by
      simp only [List.length_cons, List.length_append, hmap]
      omega)]
    rw [add128_shift7 _ (by omega)]
    rw [show (((lang.length + 128) :: (lang.data.map Char.toNat ++ TEXT)).drop 1)
      = lang.data.map Char.toNat ++ TEXT from rfl]
    rw [List.take_left' hmap]
    rw [if_pos (by omega), if_pos (by omega)]
    rw [hdropT, hdec]
    unfold TextRecord.mkChecked
    rw [asciiDecode_asciiEncode lang hA]
    dsimp only
    rw [if_pos ⟨hL1, hL2⟩]
    rfl

/-- `TextRecord._encode_payload` succeeds on valid fields and its output
round-trips through `_decode_payload`. -/
theorem text_payload_roundtrip (r : TextRecord)
    (hA : ∀ c ∈ r.language.data, c.toNat < 128)
    (hL1 : 0 < r.language.length) (hL2 : r.language.length < 64)
    (hE : r.encoding = "UTF-8" ∨ r.encoding = "UTF-16") :
    ∃ pl, r.encodePayload = .ok pl ∧ 0 < pl.length ∧
      TextRecord.decodePayload pl = .ok { r with name := [] } := by
  have hLANG : asciiEncode r.language =
      .ok (r.language.data.map Char.toNat) := by
    unfold asciiEncode
    rw [if_pos ?bound]
    case bound =>
      rw [List.all_eq_true]
      intro c hc
      exact decide_eq_true (hA c hc)
  have hmap : (r.language.data.map Char.toNat).length = r.language.length := by
    rw [List.length_map]
    rfl
  rcases hE with hU | hU
  · refine ⟨(r.language.length ||| 0) ::
      (r.language.data.map Char.toNat ++ utf8Encode r.text), ?_, by simp, ?_⟩
    · unfold TextRecord.encodePayload
      rw [hLANG]
      dsimp only
      rw [hU]
      simp only [show ("UTF-8" = "UTF-16") = False from by simp, if_false]
      rw [hmap]
      rw [if_neg (by rw [Nat.or_zero]; omega)]
      rfl
    · have hspec := text_decodePayload_spec r.text r.language false
        (utf8Encode r.text) hA hL1 hL2
        (by simp only [Bool.false_eq_true, if_false]
            exact utf8Decode_encode r.text)
      simp only [Bool.false_eq_true, if_false] at hspec
      rw [hspec, ← hU]
  · refine ⟨(r.language.length ||| 128) ::
      (r.language.data.map Char.toNat ++ utf16Encode r.text), ?_, by simp, ?_⟩
    · unfold TextRecord.encodePayload
      rw [hLANG]
      dsimp only
      rw [hU]
      simp only [show ("UTF-16" = "UTF-16") = True from by simp, if_true]
      rw [hmap]
      rw [if_neg (by rw [lor128_of_lt _ hL2]; omega)]
      rfl
    · have hspec := text_decodePayload_spec r.text r.language true
        (utf16Encode r.text) hA hL1 hL2
        (by simp only [if_true]
            exact utf16Decode_encode r.text)
      simp only [if_true] at hspec
      rw [hspec, ← hU]

theorem be32_round (n : Nat) (h : n < 4294967296) :
    be32Val (n / 16777216 % 256) (n / 65536 % 256) (n / 256 % 256) (n % 256)
      = n := by
  unfold be32Val
  omega

/-- `Record._decode` inverts `Record._encode` for a text-record wire image:
the header parses back to the same flags and the payload codec rebuilds the
record, whose `name` is then set from the wire ID. -/
theorem decodeWire_text_encode (tr : TextRecord) (name pl : List Nat)
    (mb me cf : Bool) (out : List Nat)
    (hname : name.length ≤ 255)
    (hpl1 : 0 < pl.length) (hplM : pl.length ≤ MAX_PAYLOAD_SIZE)
    (hdecpl : TextRecord.decodePayload pl = .ok tr)
    (hfull : encodeWire "urn:nfc:wkt:T" name pl mb me cf = .ok out) :
    decodeWire ndefKnownTypes out =
      .ok (.textRec { tr with name := name }, mb, me, cf, []) := by
  have hplM' : pl.length ≤ 1048576 := hplM
  unfold encodeWire at hfull
  rw [show encodeType "urn:nfc:wkt:T" = .ok (1, [84]) from rfl] at hfull
  dsimp only at hfull
  rw [show wireFields 1 [84] name pl = ([84], name, pl) from rfl] at hfull
  dsimp only at hfull
  rw [if_neg (by omega : ¬ MAX_PAYLOAD_SIZE < pl.length),
      if_neg (by omega : ¬ 255 < name.length)] at hfull
  rw [← Except.ok.inj hfull]
  have hmod := octet0_mod8 mb me cf (decide (pl.length < 256))
    (decide (0 < name.length)) 1 (by omega)
  have h7 := octet0_testBit7 mb me cf (decide (pl.length < 256))
    (decide (0 < name.length)) 1 (by omega)
  have h6 := octet0_testBit6 mb me cf (decide (pl.length < 256))
    (decide (0 < name.length)) 1 (by omega)
  have h5 := octet0_testBit5 mb me cf (decide (pl.length < 256))
    (decide (0 < name.length)) 1 (by omega)
  have h4 := octet0_testBit4 mb me cf (decide (pl.length < 256))
    (decide (0 < name.length)) 1 (by omega)
  have h3 := octet0_testBit3 mb me cf (decide (pl.length < 256))
    (decide (0 < name.length)) 1 (by omega)
  set o := (if mb then 128 else 0) + (if me then 64 else 0) +
    (if cf then 32 else 0) + (if decide (pl.length < 256) then 16 else 0) +
    (if decide (0 < name.length) then 8 else 0) + 1 with hodef
  by_cases hsr : pl.length < 256 <;> by_cases hil : 0 < name.length
  · rw [show decide (pl.length < 256) = true from decide_eq_true hsr] at h4
    rw [show decide (0 < name.length) = true from decide_eq_true hil] at h3
    rw [show decide (pl.length < 256) = true from decide_eq_true hsr,
        show decide (0 < name.length) = true from decide_eq_true hil]
    simp only [reduceIte, Bool.false_eq_true, if_true, if_false,
      List.length_nil, List.cons_append, List.nil_append,
      List.singleton_append, List.append_assoc, List.length_singleton]
    unfold decodeWire
    dsimp only
    rw [hmod, h7, h6, h5, h4, h3]
    rw [if_neg (by omega)]
    rw [show readLengths true true
      (1 :: pl.length :: name.length :: (84 :: (name ++ pl))) =
      .ok (1, pl.length, name.length, 84 :: (name ++ pl)) from rfl]
    dsimp only
    unfold decodeAfterLengths
    rw [show structuralCheck 1 1 pl.length name.length = .ok () from rfl]
    dsimp only
    rw [if_neg (by omega : ¬ MAX_PAYLOAD_SIZE < pl.length)]
    rw [show List.take 1 (84 :: (name ++ pl)) = [84] from rfl,
        show List.drop 1 (84 :: (name ++ pl)) = name ++ pl from rfl]
    rw [List.take_left' rfl, List.drop_left' rfl]
    rw [if_neg (by simp), if_neg (by simp)]
    rw [List.take_length, List.drop_length]
    rw [if_neg (by simp)]
    rw [show decodeType 1 [84] = .ok "urn:nfc:wkt:T" from rfl]
    dsimp only
    rw [show List.lookup "urn:nfc:wkt:T" ndefKnownTypes =
      some KnownClass.textRecord from rfl]
    dsimp only [KnownClass.runDecodePayload, KnownClass.minPayloadLength,
      KnownClass.maxPayloadLength]
    rw [if_neg (by omega), if_neg (by omega)]
    rw [hdecpl]
    rfl
  · have hn0 : name = [] := by
      cases name with
      | nil => rfl
      | cons a l => exact absurd (Nat.succ_pos _) hil
    subst hn0
    rw [show decide (pl.length < 256) = true from decide_eq_true hsr] at h4
    rw [show decide (0 < ([] : List Nat).length) = false from rfl] at h3
    rw [show decide (pl.length < 256) = true from decide_eq_true hsr,
        show decide (0 < ([] : List Nat).length) = false from rfl]
    simp only [reduceIte, Bool.false_eq_true, if_true, if_false,
      List.length_nil, List.cons_append, List.nil_append,
      List.singleton_append, List.append_assoc, List.length_singleton]
    unfold decodeWire
    dsimp only
    rw [hmod, h7, h6, h5, h4, h3]
    rw [if_neg (by omega)]
    rw [show readLengths true false (1 :: pl.length :: (84 :: pl)) =
      .ok (1, pl.length, 0, 84 :: pl) from rfl]
    dsimp only
    unfold decodeAfterLengths
    rw [show structuralCheck 1 1 pl.length 0 = .ok () from rfl]
    dsimp only
    rw [if_neg (by omega : ¬ MAX_PAYLOAD_SIZE < pl.length)]
    rw [show List.take 1 (84 :: pl) = [84] from rfl,
        show List.drop 1 (84 :: pl) = pl from rfl]
    rw [show List.take 0 pl = [] from rfl, show List.drop 0 pl = pl from rfl]
    rw [if_neg (by simp), if_neg (by simp)]
    rw [List.take_length, List.drop_length]
    rw [if_neg (by simp)]
    rw [show decodeType 1 [84] = .ok "urn:nfc:wkt:T" from rfl]
    dsimp only
    rw [show List.lookup "urn:nfc:wkt:T" ndefKnownTypes =
      some KnownClass.textRecord from rfl]
    dsimp only [KnownClass.runDecodePayload, KnownClass.minPayloadLength,
      KnownClass.maxPayloadLength]
    rw [if_neg (by omega), if_neg (by omega)]
    rw [hdecpl]
    rfl
  · rw [show decide (pl.length < 256) = false from decide_eq_false hsr] at h4
    rw [show decide (0 < name.length) = true from decide_eq_true hil] at h3
    rw [show decide (pl.length < 256) = false from decide_eq_false hsr,
        show decide (0 < name.length) = true from decide_eq_true hil]
    simp only [reduceIte, Bool.false_eq_true, if_true, if_false, be32Bytes,
      List.length_nil, List.cons_append, List.nil_append,
      List.singleton_append, List.append_assoc, List.length_singleton]
    unfold decodeWire
    dsimp only
    rw [hmod, h7, h6, h5, h4, h3]
    rw [if_neg (by omega)]
    rw [show readLengths false true
      (1 :: pl.length / 16777216 % 256 :: pl.length / 65536 % 256 ::
        pl.length / 256 % 256 :: pl.length % 256 :: name.length ::
        (84 :: (name ++ pl))) =
      .ok (1, be32Val (pl.length / 16777216 % 256) (pl.length / 65536 % 256)
        (pl.length / 256 % 256) (pl.length % 256), name.length,
        84 :: (name ++ pl)) from rfl]
    rw [be32_round pl.length (by omega)]
    dsimp only
    unfold decodeAfterLengths
    rw [show structuralCheck 1 1 pl.length name.length = .ok () from rfl]
    dsimp only
    rw [if_neg (by omega : ¬ MAX_PAYLOAD_SIZE < pl.length)]
    rw [show List.take 1 (84 :: (name ++ pl)) = [84] from rfl,
        show List.drop 1 (84 :: (name ++ pl)) = name ++ pl from rfl]
    rw [List.take_left' rfl, List.drop_left' rfl]
    rw [if_neg (by simp), if_neg (by simp)]
    rw [List.take_length, List.drop_length]
    rw [if_neg (by simp)]
    rw [show decodeType 1 [84] = .ok "urn:nfc:wkt:T" from rfl]
    dsimp only
    rw [show List.lookup "urn:nfc:wkt:T" ndefKnownTypes =
      some KnownClass.textRecord from rfl]
    dsimp only [KnownClass.runDecodePayload, KnownClass.minPayloadLength,
      KnownClass.maxPayloadLength]
    rw [if_neg (by omega), if_neg (by omega)]
    rw [hdecpl]
    rfl
  · have hn0 : name = [] := by
      cases name with
      | nil => rfl
      | cons a l => exact absurd (Nat.succ_pos _) hil
    subst hn0
    rw [show decide (pl.length < 256) = false from decide_eq_false hsr] at h4
    rw [show decide (0 < ([] : List Nat).length) = false from rfl] at h3
    rw [show decide (pl.length < 256) = false from decide_eq_false hsr,
        show decide (0 < ([] : List Nat).length) = false from rfl]
    simp only [reduceIte, Bool.false_eq_true, if_true, if_false, be32Bytes,
      List.length_nil, List.cons_append, List.nil_append,
      List.singleton_append, List.append_assoc, List.length_singleton]
    unfold decodeWire
    dsimp only
    rw [hmod, h7, h6, h5, h4, h3]
    rw [if_neg (by omega)]
    rw [show readLengths false false
      (1 :: pl.length / 16777216 % 256 :: pl.length / 65536 % 256 ::
        pl.length / 256 % 256 :: pl.length % 256 :: (84 :: pl)) =
      .ok (1, be32Val (pl.length / 16777216 % 256) (pl.length / 65536 % 256)
        (pl.length / 256 % 256) (pl.length % 256), 0,
        84 :: pl) from rfl]
    rw [be32_round pl.length (by omega)]
    dsimp only
    unfold decodeAfterLengths
    rw [show structuralCheck 1 1 pl.length 0 = .ok () from rfl]
    dsimp only
    rw [if_neg (by omega : ¬ MAX_PAYLOAD_SIZE < pl.length)]
    rw [show List.take 1 (84 :: pl) = [84] from rfl,
        show List.drop 1 (84 :: pl) = pl from rfl]
    rw [show List.take 0 pl = [] from rfl, show List.drop 0 pl = pl from rfl]
    rw [if_neg (by simp), if_neg (by simp)]
    rw [List.take_length, List.drop_length]
    rw [if_neg (by simp)]
    rw [show decodeType 1 [84] = .ok "urn:nfc:wkt:T" from rfl]
    dsimp only
    rw [show List.lookup "urn:nfc:wkt:T" ndefKnownTypes =
      some KnownClass.textRecord from rfl]
    dsimp only [KnownClass.runDecodePayload, KnownClass.minPayloadLength,
      KnownClass.maxPayloadLength]
    rw [if_neg (by omega), if_neg (by omega)]
    rw [hdecpl]
    rfl

theorem readLengths_short (SR IL : Bool) (s : List Nat)
    (h : s.length < 1 + (if SR then 1 else 4) + (if IL then 1 else 0)) :
    readLengths SR IL s =
      .error (.decodeError "buffer underflow at reading length fields") := by
  cases SR <;> cases IL <;>
    rcases s with _ | ⟨x1, _ | ⟨x2, _ | ⟨x3, _ | ⟨x4, _ | ⟨x5, _ | ⟨x6, s⟩⟩⟩⟩⟩⟩ <;>
    simp only [List.length_cons, List.length_nil, if_true, if_false,
      Bool.false_eq_true] at h <;>
    first
      | rfl
      | omega

theorem structuralCheck_error_shape (TNF a b c : Nat) (e : PyErr)
    (h : structuralCheck TNF a b c = .error e) : ∃ m, e = .decodeError m := by
  unfold structuralCheck at h
  split_ifs at h <;> exact ⟨_, (Except.error.inj h).symm⟩

theorem decodeAfterLengths_truncated (reg : List (String × KnownClass))
    (MB ME CF : Bool) (TNF : Nat) (TYPE ID PAYLOAD : List Nat)
    (idlen avail : Nat)
    (hplen : PAYLOAD.length ≤ MAX_PAYLOAD_SIZE)
    (hid : idlen = ID.length)
    (havail : avail < TYPE.length + ID.length + PAYLOAD.length) :
    ∃ m, decodeAfterLengths reg MB ME CF TNF TYPE.length PAYLOAD.length idlen
      ((TYPE ++ (ID ++ PAYLOAD)).take avail) = .error (.decodeError m) := by
  subst hid
  unfold decodeAfterLengths
  rcases hsc : structuralCheck TNF TYPE.length PAYLOAD.length ID.length
    with e | u
  · obtain ⟨m, rfl⟩ := structuralCheck_error_shape _ _ _ _ _ hsc
    exact ⟨m, rfl⟩
  · dsimp only
    rw [if_neg (by omega)]
    have hbody : (TYPE ++ (ID ++ PAYLOAD)).length =
        TYPE.length + (ID.length + PAYLOAD.length) := by
      simp [List.length_append]
    by_cases hTa : avail < TYPE.length
    · rw [if_pos (by
        simp only [List.length_take]
        omega)]
      exact ⟨_, rfl⟩
    · have htake : (TYPE ++ (ID ++ PAYLOAD)).take avail =
          TYPE ++ (ID ++ PAYLOAD).take (avail - TYPE.length) := by
        rw [List.take_append_eq_append_take,
          List.take_of_length_le (by omega)]
      rw [htake]
      rw [List.take_left' rfl, List.drop_left' rfl]
      rw [if_neg (by simp)]
      by_cases hIa : avail - TYPE.length < ID.length
      · rw [if_pos (by
          simp only [List.length_take, List.length_append]
          omega)]
        exact ⟨_, rfl⟩
      · have htake2 : (ID ++ PAYLOAD).take (avail - TYPE.length) =
            ID ++ PAYLOAD.take (avail - TYPE.length - ID.length) := by
          rw [List.take_append_eq_append_take,
            List.take_of_length_le (by omega)]
        rw [htake2]
        rw [List.take_left' rfl, List.drop_left' rfl]
        rw [if_neg (by simp)]
        rw [if_pos (by
          simp only [List.length_take]
          omega)]
        exact ⟨_, rfl⟩

theorem utf8Encode_replicate_a (n : Nat) :
    utf8Encode (String.mk (List.replicate n 'a')) = List.replicate n 97 := by
  show ((List.replicate n 'a').map utf8EncodeChar).flatten = List.replicate n 97
  induction n with
  | zero => rfl
  | succ n ih =>
    rw [List.replicate_succ, List.map_cons, List.flatten_cons, ih,
        List.replicate_succ]
    rfl

end NdefLib

namespace NdefLib

/-- C1: each canonical type string of the claim survives
`decode_type ∘ encode_type`. -/
theorem decode_encode_type_canonical (s : String)
    (h : s ∈ ["", "urn:nfc:wkt:T", "text/plain", "urn:nfc:ext:foo",
              "unknown", "unchanged"]) :
    (encodeType s >>= fun p => decodeType p.1 p.2) = .ok s := by
  fin_cases h <;> rfl

/-- C1 witness at `"text/plain"`. -/
theorem decode_encode_type_canonical_witness :
    (encodeType "text/plain" >>= fun p => decodeType p.1 p.2) =
      .ok "text/plain" :=
  decode_encode_type_canonical "text/plain" (by decide)

/-- C5 (evidence for the code bug): `TextRecord` registers minimum payload
length 1, and decoding a well-formed `urn:nfc:wkt:T` record with an empty
PAYLOAD under the default registry crashes with `AttributeError` — the
`raise record_cls._decode_error(...)` at src/ndef/record.py line 169 names
a method that exists nowhere in the repository — instead of the
`DecodeError` promised by `TextRecord._decode_payload`'s docstring. -/
theorem decode_short_text_payload_attribute_error :
    KnownClass.textRecord.minPayloadLength = 1 ∧
    decodeWire ndefKnownTypes [0x11, 0x01, 0x00, 0x54] =
      .error .attributeError := by
  exact ⟨rfl, rfl⟩

/-- C10: `MicroUri._decode_payload` raises `IndexError` (not `DecodeError`)
on the empty payload and on any payload whose first octet reaches the
36-entry table size; both are reachable through `Record._decode` because
`MicroUri` keeps the inherited minimum payload length 0. -/
theorem microuri_decode_payload_index_error :
    (∀ octets : List Nat,
      (octets = [] ∨ ∃ c rest, octets = c :: rest ∧ 36 ≤ c) →
      MicroUri.decodePayload octets = .error .indexError) ∧
    uriTable.length = 36 ∧
    KnownClass.microUri.minPayloadLength = 0 ∧
    decodeWire undefKnownTypes [0x11, 0x01, 0x00, 0x55] = .error .indexError ∧
    decodeWire undefKnownTypes [0x11, 0x01, 0x01, 0x55, 0x24] =
      .error .indexError := by
  refine ⟨?_, rfl, rfl, rfl, rfl⟩
  intro octets h
  rcases h with rfl | ⟨c, rest, rfl, hc⟩
  · rfl
  · have hnone : uriTable[c]? = none := by
      apply List.getElem?_eq_none
      show uriTable.length ≤ c
      rw [show uriTable.length = 36 from rfl]
      exact hc
    simp only [MicroUri.decodePayload, hnone]

/-- C10 witness: first octet 40 is outside the prefix table. -/
theorem microuri_decode_payload_index_error_witness :
    MicroUri.decodePayload [40] = .error .indexError :=
  microuri_decode_payload_index_error.1 [40]
    (Or.inr ⟨40, [], rfl, by decide⟩)

/-- C9: registering on a subclass that still shares the base dict leaves the
base dict untouched and gives the subclass its own one-entry dict keyed by
the registered class's type string; later inserts into the base dict no
longer reach the subclass, while `register_type` on `Record` itself inserts
into the base dict and leaves the subclass state alone. -/
theorem register_type_shadows_base (s : RegistryState) (rc : KnownClass)
    (h : s.derived = none) :
    (registerTypeOnSub s rc).base = s.base ∧
    (registerTypeOnSub s rc).derived = some [(rc.typeString, rc)] ∧
    List.lookup rc.typeString
      ((registerTypeOnSub s rc).derived.getD []) = some rc ∧
    (∀ rc' : KnownClass,
      (registerTypeOnRecord (registerTypeOnSub s rc) rc').derived =
        (registerTypeOnSub s rc).derived) ∧
    List.lookup rc.typeString (registerTypeOnRecord s rc).base = some rc ∧
    (registerTypeOnRecord s rc).derived = s.derived := by
  unfold registerTypeOnSub registerTypeOnRecord
  rw [h]
  refine ⟨rfl, ?_, ?_, fun rc' => rfl, ?_, rfl⟩
  · cases rc <;> rfl
  · cases rc <;> rfl
  · exact dictInsert_lookup s.base rc.typeString rc

/-- C9 witness: first registration of `TextRecord` on a subclass sharing an
empty base dict. -/
theorem register_type_shadows_base_witness :
    (registerTypeOnSub ⟨[], none⟩ .textRecord).base = [] ∧
    (registerTypeOnSub ⟨[], none⟩ .textRecord).derived =
      some [("urn:nfc:wkt:T", .textRecord)] :=
  ⟨(register_type_shadows_base ⟨[], none⟩ .textRecord rfl).1,
   (register_type_shadows_base ⟨[], none⟩ .textRecord rfl).2.1⟩

/-- C8: `MicroUri._encode_payload` emits the index of the first non-empty
table entry (in table order, not longest match) whose string starts the
URI, followed by the suffix octets, or index 0 with the whole URI when none
matches; in particular `"http://www.example.com"` becomes `0x01` followed
by `"example.com"`, and `MicroUri._decode_payload` rebuilds the original
URI from that payload. -/
theorem microuri_encode_first_match :
    (∀ (uri : String) (i : Nat) (p : String), uriTable[i]? = some p →
      p ≠ "" → strIsPrefixOf p uri →
      (∀ j q, j < i → uriTable[j]? = some q →
        q = "" ∨ ¬ strIsPrefixOf q uri) →
      MicroUri.encodePayload { uri := uri } =
        i :: utf8Encode (strDrop uri p.length)) ∧
    (∀ uri : String,
      (∀ (j : Nat) (q : String), uriTable[j]? = some q →
        q = "" ∨ ¬ strIsPrefixOf q uri) →
      MicroUri.encodePayload { uri := uri } = 0 :: utf8Encode uri) ∧
    uriTable.length = 36 ∧
    MicroUri.encodePayload { uri := "http://www.example.com" } =
      [1, 101, 120, 97, 109, 112, 108, 101, 46, 99, 111, 109] ∧
    MicroUri.decodePayload
      [1, 101, 120, 97, 109, 112, 108, 101, 46, 99, 111, 109] =
      .ok { uri := "http://www.example.com", name := [] } := by
  refine ⟨?_, ?_, rfl, rfl, rfl⟩
  · intro uri i p hp hne hpre hblock
    unfold MicroUri.encodePayload
    rw [uriScan_finds uriTable uri 0 i p hp hne hpre hblock, Nat.zero_add]
  · intro uri hblock
    unfold MicroUri.encodePayload
    rw [uriScan_none uriTable uri 0 hblock]

/-- C2 counterexample: a `TextRecord` with valid fields (defaults except
for the text) whose UTF-8 payload exceeds the 0x100000-octet cap does not
round-trip — `Record._encode` raises `EncodeError`, so no wire bytes are
produced to decode. -/
theorem textrecord_roundtrip_counterexample :
    TextRecord.encode
      { text := String.mk (List.replicate 1048574 'a'), language := "en",
        encoding := "UTF-8", name := [] } false false false =
      .error
        (.encodeError "payload of more than 1048576 octets can not be encoded") := by
  unfold TextRecord.encode TextRecord.encodePayload
  dsimp only
  rw [show asciiEncode "en" = .ok [101, 110] from rfl]
  dsimp only
  simp only [show ("UTF-8" = "UTF-16") = False from by simp, if_false]
  rw [show ([101, 110] : List Nat).length ||| 0 = 2 from rfl]
  rw [if_neg (by decide : ¬ (255 : Nat) < 2)]
  dsimp only
  unfold encodeWire
  rw [show encodeType "urn:nfc:wkt:T" = .ok (1, [84]) from rfl]
  dsimp only
  rw [if_pos (by
    rw [show wireFields 1 [84] []
        ([2, 101, 110] ++
          utf8Encode (String.mk (List.replicate 1048574 'a'))) =
        ([84], [],
          [2, 101, 110] ++
            utf8Encode (String.mk (List.replicate 1048574 'a'))) from rfl]
    dsimp only
    simp only [List.length_append, utf8Encode_replicate_a,
      List.length_replicate]
    decide)]

/-- C2 (amended): a `TextRecord` with valid field values whose encoded
payload does not exceed `MAX_PAYLOAD_SIZE` encodes through `Record._encode`
and decodes back through `Record._decode` (default registry) to an equal
record — same text, language, encoding and name — together with the same
MB/ME/CF flags and an exhausted stream. -/
theorem textrecord_roundtrip (r : TextRecord) (mb me cf : Bool)
    (hA : ∀ c ∈ r.language.data, c.toNat < 128)
    (hL1 : 0 < r.language.length) (hL2 : r.language.length < 64)
    (hE : r.encoding = "UTF-8" ∨ r.encoding = "UTF-16")
    (hname : r.name.length ≤ 255)
    (hsize : ∀ pl, r.encodePayload = .ok pl →
      pl.length ≤ MAX_PAYLOAD_SIZE) :
    ∃ out, r.encode mb me cf = .ok out ∧
      decodeWire ndefKnownTypes out = .ok (.textRec r, mb, me, cf, []) := by
  obtain ⟨pl, hpl, hpl1, hdec⟩ := text_payload_roundtrip r hA hL1 hL2 hE
  have hplM := hsize pl hpl
  unfold TextRecord.encode
  rw [hpl]
  have hout : ∃ out, encodeWire "urn:nfc:wkt:T" r.name pl mb me cf =
      .ok out := by
    unfold encodeWire
    rw [show encodeType "urn:nfc:wkt:T" = .ok (1, [84]) from rfl]
    dsimp only
    rw [show wireFields 1 [84] r.name pl = ([84], r.name, pl) from rfl]
    dsimp only
    rw [if_neg (by omega), if_neg (by omega)]
    exact ⟨_, rfl⟩
  obtain ⟨out, hout⟩ := hout
  refine ⟨out, hout, ?_⟩
  exact decodeWire_text_encode { r with name := [] } r.name pl mb me cf out
    hname hpl1 hplM hdec hout

/-- C2 witness: a default-constructed `TextRecord` (empty text, language
`"en"`, encoding `"UTF-8"`) round-trips unchanged. -/
theorem textrecord_roundtrip_witness :
    ∃ out, TextRecord.encode ⟨"", "en", "UTF-8", []⟩ true true false =
      .ok out ∧
      decodeWire ndefKnownTypes out =
        .ok (.textRec ⟨"", "en", "UTF-8", []⟩, true, true, false, []) :=
  textrecord_roundtrip ⟨"", "en", "UTF-8", []⟩ true true false
    (by decide) (by decide) (by decide) (Or.inl rfl) (by decide)
    (fun pl hpl => by
      rw [show TextRecord.encodePayload ⟨"", "en", "UTF-8", []⟩ =
        .ok [2, 101, 110] from rfl] at hpl
      rw [← Except.ok.inj hpl]
      decide)

/-- C3 counterexample: a TNF-6 (`"unchanged"`) record with a nonempty name
encodes with the IL bit clear, although the claim says the IL bit is set
iff the record's name is non-empty: the wire ID field is forced empty for
TNF 6, so the name never reaches the header. -/
theorem encode_flags_counterexample :
    encodeWire "unchanged" [65] [] false false false = .ok [22, 0, 0] ∧
    Nat.testBit 22 3 = false ∧
    ([65] : List Nat).isEmpty = false := by
  exact ⟨rfl, by decide, by decide⟩

/-- C3 (amended): in the flags octet emitted by `Record._encode`, SR is set
iff the TNF-derived wire PAYLOAD is shorter than 256 octets and IL is set
iff the TNF-derived wire ID is nonempty — i.e. the record's payload and
name, except that TNF 0 forces all fields empty and TNF 6 forces the ID
empty. -/
theorem encode_flags_sr_il (ty : String) (name data : List Nat)
    (mb me cf : Bool) (TNF : Nat) (TYPE0 out : List Nat)
    (ht : encodeType ty = .ok (TNF, TYPE0))
    (hout : encodeWire ty name data mb me cf = .ok out) :
    ∃ o tail, out = o :: tail ∧
      o.testBit 4 =
        decide ((wireFields TNF TYPE0 name data).2.2.length < 256) ∧
      o.testBit 3 =
        decide (0 < (wireFields TNF TYPE0 name data).2.1.length) := by
  have h8 : TNF < 8 := by
    have := encodeType_tnf_le ty TNF TYPE0 ht
    omega
  rcases hw : wireFields TNF TYPE0 name data with ⟨TYPE, ID, PAYLOAD⟩
  unfold encodeWire at hout
  rw [ht] at hout
  dsimp only at hout
  rw [hw] at hout
  dsimp only at hout
  by_cases h1 : MAX_PAYLOAD_SIZE < PAYLOAD.length
  · rw [if_pos h1] at hout
    exact absurd hout (by simp)
  rw [if_neg h1] at hout
  by_cases h2 : 255 < ID.length
  · rw [if_pos h2] at hout
    exact absurd hout (by simp)
  rw [if_neg h2] at hout
  refine ⟨_, _, (Except.ok.inj hout).symm, ?_, ?_⟩
  · exact octet0_testBit4 mb me cf _ _ TNF h8
  · exact octet0_testBit3 mb me cf _ _ TNF h8

/-- C3 witness: a `"text/plain"` record with one name octet and one payload
octet has both SR and IL set. -/
theorem encode_flags_sr_il_witness :
    ∃ o tail,
      ([218, 10, 1, 1, 116, 101, 120, 116, 47, 112, 108, 97, 105, 110, 65, 0] :
        List Nat) = o :: tail ∧
      o.testBit 4 =
        decide ((wireFields 2 (strBytes "text/plain") [65] [0]).2.2.length < 256) ∧
      o.testBit 3 =
        decide (0 < (wireFields 2 (strBytes "text/plain") [65] [0]).2.1.length) :=
  encode_flags_sr_il "text/plain" [65] [0] true true false 2
    (strBytes "text/plain") _ rfl rfl

/-- C4: `Record._decode` raises `DecodeError` whenever the flags octet has
TNF bits 7; and, once the length fields are read, whenever TNF = 0 with any
nonzero declared length, TNF 5 or 6 with nonzero TYPE_LENGTH, or TNF 1..4
with zero TYPE_LENGTH. -/
theorem decode_structural_invariants (reg : List (String × KnownClass))
    (o : Nat) (rest : List Nat) :
    (o % 8 = 7 →
      decodeWire reg (o :: rest) =
        .error (.decodeError "TNF field value must be between 0 and 6")) ∧
    (∀ (tlen plen idlen : Nat) (s2 : List Nat),
      readLengths (o.testBit 4) (o.testBit 3) rest =
        .ok (tlen, plen, idlen, s2) →
      ((o % 8 = 0 ∧ (tlen ≠ 0 ∨ plen ≠ 0 ∨ idlen ≠ 0)) ∨
       ((o % 8 = 5 ∨ o % 8 = 6) ∧ tlen ≠ 0) ∨
       ((o % 8 = 1 ∨ o % 8 = 2 ∨ o % 8 = 3 ∨ o % 8 = 4) ∧ tlen = 0)) →
      ∃ m, decodeWire reg (o :: rest) = .error (.decodeError m)) := by
  constructor
  · intro h7
    unfold decodeWire
    dsimp only
    rw [if_pos h7]
  · intro tlen plen idlen s2 hread hbad
    have h7 : ¬ (o % 8 = 7) := by
      rcases hbad with ⟨h0, _⟩ | ⟨h56, _⟩ | ⟨h14, _⟩
      · omega
      · rcases h56 with h | h <;> omega
      · rcases h14 with h | h | h | h <;> omega
    obtain ⟨m, hsc⟩ := structuralCheck_fails (o % 8) tlen plen idlen hbad
    refine ⟨m, ?_⟩
    unfold decodeWire
    dsimp only
    rw [if_neg h7, hread]
    dsimp only
    unfold decodeAfterLengths
    rw [hsc]

/-- C4 witness: TNF 7 in the flags octet, and a TNF-0 record declaring
TYPE_LENGTH 1. -/
theorem decode_structural_invariants_witness :
    decodeWire ndefKnownTypes [23] =
      .error (.decodeError "TNF field value must be between 0 and 6") ∧
    ∃ m, decodeWire ndefKnownTypes [0, 1, 0, 0, 0, 0] =
      .error (.decodeError m) :=
  ⟨(decode_structural_invariants ndefKnownTypes 23 []).1 (by decide),
   (decode_structural_invariants ndefKnownTypes 0 [1, 0, 0, 0, 0]).2
     1 0 0 [] rfl (Or.inl ⟨by decide, Or.inl (by decide)⟩)⟩

/-- C7: `Record._encode` fails with `EncodeError` exactly when the wire
PAYLOAD exceeds `MAX_PAYLOAD_SIZE` (0x100000) octets, and succeeds at or
below the bound (for an encodable type and a name fitting its length
octet); `Record._decode` rejects a declared PAYLOAD_LENGTH above the bound
with a `DecodeError`, even when the stream holds no bytes beyond the length
fields — i.e. before reading TYPE, ID or PAYLOAD. -/
theorem payload_size_bounds :
    (∀ (ty : String) (name data : List Nat) (mb me cf : Bool) (TNF : Nat)
      (TYPE0 : List Nat), encodeType ty = .ok (TNF, TYPE0) →
      ((∃ m, encodeWire ty name data mb me cf = .error (.encodeError m)) ↔
        MAX_PAYLOAD_SIZE < (wireFields TNF TYPE0 name data).2.2.length)) ∧
    (∀ (ty : String) (name data : List Nat) (mb me cf : Bool) (TNF : Nat)
      (TYPE0 : List Nat), encodeType ty = .ok (TNF, TYPE0) →
      name.length ≤ 255 →
      (wireFields TNF TYPE0 name data).2.2.length ≤ MAX_PAYLOAD_SIZE →
      ∃ out, encodeWire ty name data mb me cf = .ok out) ∧
    (∀ (reg : List (String × KnownClass)) (o : Nat) (rest s2 : List Nat)
      (tlen plen idlen : Nat),
      ¬ (o % 8 = 7) →
      readLengths (o.testBit 4) (o.testBit 3) rest =
        .ok (tlen, plen, idlen, s2) →
      structuralCheck (o % 8) tlen plen idlen = .ok () →
      MAX_PAYLOAD_SIZE < plen →
      decodeWire reg (o :: rest) =
        .error
          (.decodeError "payload of more than 1048576 octets can not be decoded")) := by
  refine ⟨?_, ?_, ?_⟩
  · intro ty name data mb me cf TNF TYPE0 ht
    rcases hw : wireFields TNF TYPE0 name data with ⟨TYPE, ID, PAYLOAD⟩
    unfold encodeWire
    rw [ht]
    dsimp only
    rw [hw]
    dsimp only
    constructor
    · rintro ⟨m, hm⟩
      by_cases h1 : MAX_PAYLOAD_SIZE < PAYLOAD.length
      · exact h1
      · exfalso
        rw [if_neg h1] at hm
        by_cases h2 : 255 < ID.length
        · rw [if_pos h2] at hm
          exact absurd hm (by simp)
        · rw [if_neg h2] at hm
          exact absurd hm (by simp)
    · intro h1
      rw [if_pos h1]
      exact ⟨_, rfl⟩
  · intro ty name data mb me cf TNF TYPE0 ht hname hpay
    rcases hw : wireFields TNF TYPE0 name data with ⟨TYPE, ID, PAYLOAD⟩
    have hid : ID.length ≤ 255 := by
      have : ID = [] ∨ ID = name := by
        unfold wireFields at hw
        split_ifs at hw <;>
          simp only [Prod.mk.injEq] at hw <;>
          rcases hw with ⟨-, h2, -⟩ <;> [left; right; left; right] <;>
            exact h2.symm
      rcases this with h | h <;> rw [h] <;> simp [hname]
    unfold encodeWire
    rw [ht]
    dsimp only
    rw [hw]
    dsimp only
    rw [if_neg (by rw [hw] at hpay; dsimp only at hpay; omega),
      if_neg (by omega)]
    exact ⟨_, rfl⟩
  · intro reg o rest s2 tlen plen idlen h7 hread hsc hmax
    unfold decodeWire
    dsimp only
    rw [if_neg h7, hread]
    dsimp only
    unfold decodeAfterLengths
    rw [hsc]
    dsimp only
    rw [if_pos hmax]

/-- C7 witness: a TNF-5 record with 0x100001 payload octets is refused and
one with exactly 0x100000 encodes; a declared PAYLOAD_LENGTH of 0x100001
with nothing after the length fields is refused with the size message. -/
theorem payload_size_bounds_witness :
    (∃ m, encodeWire "unknown" [] (List.replicate 1048577 0) false false false =
      .error (.encodeError m)) ∧
    (∃ out, encodeWire "unknown" [] (List.replicate 1048576 0) false false false =
      .ok out) ∧
    decodeWire ndefKnownTypes [1, 1, 0, 16, 0, 1] =
      .error
        (.decodeError "payload of more than 1048576 octets can not be decoded") := by
  refine ⟨?_, ?_, ?_⟩
  · refine (payload_size_bounds.1 "unknown" [] (List.replicate 1048577 0)
      false false false 5 [] rfl).mpr ?_
    show MAX_PAYLOAD_SIZE < (List.replicate 1048577 (0 : Nat)).length
    rw [List.length_replicate]
    decide
  · refine payload_size_bounds.2.1 "unknown" [] (List.replicate 1048576 0)
      false false false 5 [] rfl (by decide) ?_
    show (List.replicate 1048576 (0 : Nat)).length ≤ MAX_PAYLOAD_SIZE
    rw [List.length_replicate]
    decide
  · exact payload_size_bounds.2.2 ndefKnownTypes 1 [1, 0, 16, 0, 1] [] 1
      1048577 0 (by decide) rfl rfl (by decide)

/-- C8 witness: table entry 1 (`"http://www."`) is the first match for
`"http://www.x"`. -/
theorem microuri_encode_first_match_witness :
    MicroUri.encodePayload { uri := "http://www.x" } =
      1 :: utf8Encode (strDrop "http://www.x" 11) :=
  microuri_encode_first_match.1 "http://www.x" 1 "http://www." rfl
    (by decide) (by decide)
    (fun j q hj hq => by
      interval_cases j
      exact Or.inl (Option.some.inj (by
        rw [show uriTable[0]? = some "" from rfl] at hq
        exact hq)).symm)

/-- C6 counterexample: `Record._decode` on a stream exhausted at the flags
octet raises `IndexError` (from `stream.read(1)[0]` on an empty read), not
a `DecodeError`. -/
theorem decode_truncated_counterexample :
    decodeWire ndefKnownTypes [] = .error .indexError ∧
    PyErr.indexError.isDecodeError = false := by
  exact ⟨rfl, rfl⟩

/-- C6 (amended): truncating a valid record encoding anywhere after the
flags octet — inside the length fields or inside TYPE, ID or PAYLOAD —
makes `Record._decode` report a `DecodeError` (buffer underflow or an
earlier structural `DecodeError`); exhaustion at the flags octet itself
raises `IndexError` instead. -/
theorem decode_truncated_underflow (reg : List (String × KnownClass)) :
    decodeWire reg [] = .error .indexError ∧
    ∀ (ty : String) (name data : List Nat) (mb me cf : Bool)
      (full : List Nat) (k : Nat),
      encodeWire ty name data mb me cf = .ok full →
      1 ≤ k → k < full.length →
      ∃ m, decodeWire reg (full.take k) = .error (.decodeError m) := by
  refine ⟨rfl, ?_⟩
  intro ty name data mb me cf full k hfull hk1 hk2
  rcases hty : encodeType ty with e | p
  · unfold encodeWire at hfull
    rw [hty] at hfull
    exact absurd hfull (by simp)
  obtain ⟨TNF, TYPE0⟩ := p
  have h6 : TNF ≤ 6 := encodeType_tnf_le ty TNF TYPE0 hty
  rcases hw : wireFields TNF TYPE0 name data with ⟨TYPE, ID, PAYLOAD⟩
  unfold encodeWire at hfull
  rw [hty] at hfull
  dsimp only at hfull
  rw [hw] at hfull
  dsimp only at hfull
  by_cases h1 : MAX_PAYLOAD_SIZE < PAYLOAD.length
  · rw [if_pos h1] at hfull
    exact absurd hfull (by simp)
  rw [if_neg h1] at hfull
  by_cases h2 : 255 < ID.length
  · rw [if_pos h2] at hfull
    exact absurd hfull (by simp)
  rw [if_neg h2] at hfull
  have hplM' : PAYLOAD.length ≤ 1048576 := by
    have : ¬ MAX_PAYLOAD_SIZE < PAYLOAD.length := h1
    unfold MAX_PAYLOAD_SIZE at this
    omega
  have hmod := octet0_mod8 mb me cf (decide (PAYLOAD.length < 256))
    (decide (0 < ID.length)) TNF (by omega)
  have h4 := octet0_testBit4 mb me cf (decide (PAYLOAD.length < 256))
    (decide (0 < ID.length)) TNF (by omega)
  have h3 := octet0_testBit3 mb me cf (decide (PAYLOAD.length < 256))
    (decide (0 < ID.length)) TNF (by omega)
  set o := (if mb then 128 else 0) + (if me then 64 else 0) +
    (if cf then 32 else 0) +
    (if decide (PAYLOAD.length < 256) then 16 else 0) +
    (if decide (0 < ID.length) then 8 else 0) + TNF with hodef
  rw [← Except.ok.inj hfull] at hk2 ⊢
  obtain ⟨k', rfl⟩ : ∃ a, k = a + 1 := ⟨k - 1, by omega⟩
  by_cases hsr : PAYLOAD.length < 256 <;> by_cases hil : 0 < ID.length
  · rw [show decide (PAYLOAD.length < 256) = true from decide_eq_true hsr] at h4
    rw [show decide (0 < ID.length) = true from decide_eq_true hil] at h3
    rw [show decide (PAYLOAD.length < 256) = true from decide_eq_true hsr,
        show decide (0 < ID.length) = true from decide_eq_true hil] at hk2 ⊢
    simp only [reduceIte, Bool.false_eq_true, if_true, if_false,
      List.cons_append, List.nil_append, List.singleton_append,
      List.append_assoc] at hk2 ⊢
    simp only [List.length_cons, List.length_append] at hk2
    rw [List.take_succ_cons]
    unfold decodeWire
    dsimp only
    rw [hmod, h4, h3]
    rw [if_neg (by omega)]
    by_cases hk3 : k' < 3
    · rw [readLengths_short true true _ (by
        simp only [List.length_take, List.length_cons, List.length_append,
          if_true]
        omega)]
      exact ⟨_, rfl⟩
    · obtain ⟨a, rfl⟩ : ∃ a, k' = a + 3 := ⟨k' - 3, by omega⟩
      rw [show (TYPE.length :: PAYLOAD.length :: ID.length ::
          (TYPE ++ (ID ++ PAYLOAD))).take (a + 3) =
        TYPE.length :: PAYLOAD.length :: ID.length ::
          (TYPE ++ (ID ++ PAYLOAD)).take a from rfl]
      rw [show readLengths true true (TYPE.length :: PAYLOAD.length ::
          ID.length :: (TYPE ++ (ID ++ PAYLOAD)).take a) =
        .ok (TYPE.length, PAYLOAD.length, ID.length,
          (TYPE ++ (ID ++ PAYLOAD)).take a) from rfl]
      dsimp only
      exact decodeAfterLengths_truncated reg _ _ _ TNF TYPE ID PAYLOAD
        ID.length a hplM' rfl (by omega)
  · have hID0 : ID = [] := by
      cases ID with
      | nil => rfl
      | cons x l => exact absurd (Nat.succ_pos _) hil
    subst hID0
    rw [show decide (PAYLOAD.length < 256) = true from decide_eq_true hsr] at h4
    rw [show decide (0 < ([] : List Nat).length) = false from rfl] at h3
    rw [show decide (PAYLOAD.length < 256) = true from decide_eq_true hsr,
        show decide (0 < ([] : List Nat).length) = false from rfl] at hk2 ⊢
    simp only [reduceIte, Bool.false_eq_true, if_true, if_false,
      List.cons_append, List.nil_append, List.singleton_append,
      List.append_assoc] at hk2 ⊢
    simp only [List.length_cons, List.length_append] at hk2
    rw [List.take_succ_cons]
    unfold decodeWire
    dsimp only
    rw [hmod, h4, h3]
    rw [if_neg (by omega)]
    by_cases hk3 : k' < 2
    · rw [readLengths_short true false _ (by
        simp only [List.length_take, List.length_cons, List.length_append,
          if_true, if_false, Bool.false_eq_true]
        omega)]
      exact ⟨_, rfl⟩
    · obtain ⟨a, rfl⟩ : ∃ a, k' = a + 2 := ⟨k' - 2, by omega⟩
      rw [show (TYPE.length :: PAYLOAD.length ::
          (TYPE ++ PAYLOAD)).take (a + 2) =
        TYPE.length :: PAYLOAD.length ::
          (TYPE ++ PAYLOAD).take a from rfl]
      rw [show readLengths true false (TYPE.length :: PAYLOAD.length ::
          (TYPE ++ PAYLOAD).take a) =
        .ok (TYPE.length, PAYLOAD.length, 0,
          (TYPE ++ PAYLOAD).take a) from rfl]
      dsimp only
      have := decodeAfterLengths_truncated reg (o.testBit 7) (o.testBit 6)
        (o.testBit 5) TNF TYPE [] PAYLOAD 0 a hplM' rfl (by
          simp only [List.length_nil]
          omega)
      simpa using this
  · rw [show decide (PAYLOAD.length < 256) = false from
      decide_eq_false hsr] at h4
    rw [show decide (0 < ID.length) = true from decide_eq_true hil] at h3
    rw [show decide (PAYLOAD.length < 256) = false from decide_eq_false hsr,
        show decide (0 < ID.length) = true from decide_eq_true hil] at hk2 ⊢
    simp only [reduceIte, Bool.false_eq_true, if_true, if_false, be32Bytes,
      List.cons_append, List.nil_append, List.singleton_append,
      List.append_assoc] at hk2 ⊢
    simp only [List.length_cons, List.length_append] at hk2
    rw [List.take_succ_cons]
    unfold decodeWire
    dsimp only
    rw [hmod, h4, h3]
    rw [if_neg (by omega)]
    by_cases hk3 : k' < 6
    · rw [readLengths_short false true _ (by
        simp only [List.length_take, List.length_cons, List.length_append,
          if_true, if_false, Bool.false_eq_true]
        omega)]
      exact ⟨_, rfl⟩
    · obtain ⟨a, rfl⟩ : ∃ a, k' = a + 6 := ⟨k' - 6, by omega⟩
      rw [show (TYPE.length :: PAYLOAD.length / 16777216 % 256 ::
          PAYLOAD.length / 65536 % 256 :: PAYLOAD.length / 256 % 256 ::
          PAYLOAD.length % 256 :: ID.length ::
          (TYPE ++ (ID ++ PAYLOAD))).take (a + 6) =
        TYPE.length :: PAYLOAD.length / 16777216 % 256 ::
          PAYLOAD.length / 65536 % 256 :: PAYLOAD.length / 256 % 256 ::
          PAYLOAD.length % 256 :: ID.length ::
          (TYPE ++ (ID ++ PAYLOAD)).take a from rfl]
      rw [show readLengths false true (TYPE.length ::
          PAYLOAD.length / 16777216 % 256 :: PAYLOAD.length / 65536 % 256 ::
          PAYLOAD.length / 256 % 256 :: PAYLOAD.length % 256 :: ID.length ::
          (TYPE ++ (ID ++ PAYLOAD)).take a) =
        .ok (TYPE.length, be32Val (PAYLOAD.length / 16777216 % 256)
          (PAYLOAD.length / 65536 % 256) (PAYLOAD.length / 256 % 256)
          (PAYLOAD.length % 256), ID.length,
          (TYPE ++ (ID ++ PAYLOAD)).take a) from rfl]
      rw [be32_round PAYLOAD.length (by omega)]
      dsimp only
      exact decodeAfterLengths_truncated reg _ _ _ TNF TYPE ID PAYLOAD
        ID.length a hplM' rfl (by omega)
  · have hID0 : ID = [] := by
      cases ID with
      | nil => rfl
      | cons x l => exact absurd (Nat.succ_pos _) hil
    subst hID0
    rw [show decide (PAYLOAD.length < 256) = false from
      decide_eq_false hsr] at h4
    rw [show decide (0 < ([] : List Nat).length) = false from rfl] at h3
    rw [show decide (PAYLOAD.length < 256) = false from decide_eq_false hsr,
        show decide (0 < ([] : List Nat).length) = false from rfl] at hk2 ⊢
    simp only [reduceIte, Bool.false_eq_true, if_true, if_false, be32Bytes,
      List.cons_append, List.nil_append, List.singleton_append,
      List.append_assoc] at hk2 ⊢
    simp only [List.length_cons, List.length_append] at hk2
    rw [List.take_succ_cons]
    unfold decodeWire
    dsimp only
    rw [hmod, h4, h3]
    rw [if_neg (by omega)]
    by_cases hk3 : k' < 5
    · rw [readLengths_short false false _ (by
        simp only [List.length_take, List.length_cons, List.length_append,
          if_true, if_false, Bool.false_eq_true]
        omega)]
      exact ⟨_, rfl⟩
    · obtain ⟨a, rfl⟩ : ∃ a, k' = a + 5 := ⟨k' - 5, by omega⟩
      rw [show (TYPE.length :: PAYLOAD.length / 16777216 % 256 ::
          PAYLOAD.length / 65536 % 256 :: PAYLOAD.length / 256 % 256 ::
          PAYLOAD.length % 256 ::
          (TYPE ++ PAYLOAD)).take (a + 5) =
        TYPE.length :: PAYLOAD.length / 16777216 % 256 ::
          PAYLOAD.length / 65536 % 256 :: PAYLOAD.length / 256 % 256 ::
          PAYLOAD.length % 256 ::
          (TYPE ++ PAYLOAD).take a from rfl]
      rw [show readLengths false false (TYPE.length ::
          PAYLOAD.length / 16777216 % 256 :: PAYLOAD.length / 65536 % 256 ::
          PAYLOAD.length / 256 % 256 :: PAYLOAD.length % 256 ::
          (TYPE ++ PAYLOAD).take a) =
        .ok (TYPE.length, be32Val (PAYLOAD.length / 16777216 % 256)
          (PAYLOAD.length / 65536 % 256) (PAYLOAD.length / 256 % 256)
          (PAYLOAD.length % 256), 0,
          (TYPE ++ PAYLOAD).take a) from rfl]
      rw [be32_round PAYLOAD.length (by omega)]
      dsimp only
      have := decodeAfterLengths_truncated reg (o.testBit 7) (o.testBit 6)
        (o.testBit 5) TNF TYPE [] PAYLOAD 0 a hplM' rfl (by
          simp only [List.length_nil]
          omega)
      simpa using this

/-- C6 witness: three of five octets of an encoded TNF-5 record. -/
theorem decode_truncated_underflow_witness :
    ∃ m, decodeWire ndefKnownTypes (([21, 0, 2, 1, 2] : List Nat).take 3) =
      .error (.decodeError m) :=
  (decode_truncated_underflow ndefKnownTypes).2 "unknown" [] [1, 2]
    false false false [21, 0, 2, 1, 2] 3 rfl (by decide) (by decide)

end NdefLib
